import Mathlib

/-!
Verification of the dynamic stock valuation engine of the coplacont backend.

The TypeScript services StockCalculationService, LoteCreationService and
KardexCalculationService are embedded shallowly:

* quantities and monetary amounts (TS floating numbers) are modelled as `ℚ`;
* dates are modelled at day granularity as `Int` (the code normalises all
  date comparisons that matter here either to whole days, via getFullYear /
  getMonth / getDate truncation, or to end-of-day bounds, so one integer per
  day is faithful for the properties below; `fechaDesde - 1 day @ 23:59:59`
  becomes `fechaDesde - 1`);
* the relational store (TypeORM repositories) is modelled as explicit lists
  of rows in a `Db` record; a query with ORDER BY on a non-unique column is
  a stable sort of the list, so the order of ties is the order in which the
  rows sit in the table, exactly the freedom the database has;
* the process-wide StockCacheService is not part of the sources given, only
  its call sites are; it is modelled from the spec as an association list
  keyed by (id, optional cutoff date) with get / set / invalidate;
* every service method that reads or writes the cache is threaded through an
  explicit `EngineState`; thrown JS errors become `Except String`.
-/

namespace Coplacont

/-- Movement kinds, enum TipoMovimiento of the source. -/
inductive TipoMovimiento where
  | ENTRADA
  | SALIDA
  | AJUSTE
  deriving Repr, DecidableEq

/-- Movement states, enum EstadoMovimiento of the source (PROCESADO is the
only state the engine counts). -/
inductive EstadoMovimiento where
  | PROCESADO
  | ANULADO
  deriving Repr, DecidableEq

/-- Valuation methods, enum MetodoValoracion of the source. The source
constructors are named PROMEDIO and FIFO; lower case is used here. -/
inductive MetodoValoracion where
  | promedio
  | fifo
  deriving Repr, DecidableEq

/-- Row of the inventario_lotes table (entity InventarioLote), restricted to
the columns the engine reads. -/
structure Lote where
  id : Nat
  idInventario : Nat
  cantidadInicial : ℚ
  costoUnitario : ℚ
  fechaIngreso : Int
  deriving Repr, DecidableEq

/-- Row of the movimientos table (entity Movimiento). `tipoOperacion` holds
the value the SQL joins m.comprobante -> c.tipoOperacion.descripcion would
produce (none when the movement has no comprobante). -/
structure Movimiento where
  id : Nat
  tipo : TipoMovimiento
  fecha : Int
  numeroDocumento : Option String
  estado : EstadoMovimiento
  tipoOperacion : Option String
  deriving Repr, DecidableEq

/-- Row of the movimiento_detalles table (entity MovimientoDetalle). -/
structure MovimientoDetalle where
  id : Nat
  idMovimiento : Nat
  idInventario : Nat
  idLote : Option Nat
  cantidad : ℚ
  deriving Repr, DecidableEq

/-- Row of the detalle_salidas table (entity DetalleSalida); `idLote = 0`
denotes an exit not tied to any lot. -/
structure DetalleSalida where
  idMovimientoDetalle : Nat
  idLote : Nat
  cantidad : ℚ
  deriving Repr, DecidableEq

/-- The ledger store: the tables the engine queries. `inventarios` keeps
only the ids (product/warehouse payload is irrelevant to the claims);
`nextLoteId` is the sequence behind the generated lot primary key. -/
structure Db where
  inventarios : List Nat
  lotes : List Lote
  movimientos : List Movimiento
  movimientoDetalles : List MovimientoDetalle
  detallesSalida : List DetalleSalida
  nextLoteId : Nat
  deriving Repr, DecidableEq

/-- Result shape of calcularStockLote (interface LoteStockResult). -/
structure LoteStockResult where
  idLote : Nat
  cantidadActual : ℚ
  cantidadInicial : ℚ
  costoUnitario : ℚ
  fechaIngreso : Int
  deriving Repr, DecidableEq

/-- Result shape of calcularStockInventario (interface
InventarioStockResult). -/
structure InventarioStockResult where
  idInventario : Nat
  stockActual : ℚ
  costoPromedioActual : ℚ
  lotes : List LoteStockResult
  deriving Repr, DecidableEq

/-- Shape of the lots returned for FIFO consumption (interface
LoteDisponible). -/
structure LoteDisponible where
  idLote : Nat
  cantidadDisponible : ℚ
  costoUnitario : ℚ
  fechaIngreso : Int
  deriving Repr, DecidableEq

/-- Modelled from the spec: the payload setInventarioStock stores (the
source of StockCacheService is not part of the given files; §2 and §9 of
the spec describe a keyed get/set/invalidate store). -/
structure InvCacheEntry where
  stockActual : ℚ
  costoPromedioActual : ℚ
  valorTotal : ℚ
  deriving Repr, DecidableEq

/-- Modelled from the spec: StockCacheService, an in-memory store keyed by
(lot id | inventory id, optional cutoff date), read by getLoteStock /
getInventarioStock, written by setLoteStock / setInventarioStock and
cleared per inventory by invalidateInventario. Entries are kept in an
association list; a new entry shadows an older one with the same key. -/
structure StockCache where
  loteEntries : List ((Nat × Option Int) × LoteStockResult)
  invEntries : List ((Nat × Option Int) × InvCacheEntry)
  deriving Repr, DecidableEq

/-- Modelled from the spec: StockCacheService.getLoteStock. -/
def StockCache.getLoteStock (c : StockCache) (idLote : Nat)
    (fechaHasta : Option Int) : Option LoteStockResult :=
  (c.loteEntries.find? (fun e => e.1 == (idLote, fechaHasta))).map (·.2)

/-- Modelled from the spec: StockCacheService.setLoteStock. -/
def StockCache.setLoteStock (c : StockCache) (idLote : Nat)
    (fechaHasta : Option Int) (r : LoteStockResult) : StockCache :=
  { c with loteEntries := ((idLote, fechaHasta), r) :: c.loteEntries }

/-- Modelled from the spec: StockCacheService.getInventarioStock. -/
def StockCache.getInventarioStock (c : StockCache) (idInventario : Nat)
    (fechaHasta : Option Int) : Option InvCacheEntry :=
  (c.invEntries.find? (fun e => e.1 == (idInventario, fechaHasta))).map (·.2)

/-- Modelled from the spec: StockCacheService.setInventarioStock. -/
def StockCache.setInventarioStock (c : StockCache) (idInventario : Nat)
    (fechaHasta : Option Int) (r : InvCacheEntry) : StockCache :=
  { c with invEntries := ((idInventario, fechaHasta), r) :: c.invEntries }

/-- Modelled from the spec: StockCacheService.invalidateInventario drops
every cached result for the inventory id. -/
def StockCache.invalidateInventario (c : StockCache) (idInventario : Nat) :
    StockCache :=
  { c with invEntries := c.invEntries.filter (fun e => !(e.1.1 == idInventario)) }

/-- The empty cache (process start). -/
def StockCache.empty : StockCache := ⟨[], []⟩

/-- Mutable world of the engine: ledger store plus stock cache, and the
clock used where the source calls Date.now / new Date. -/
structure EngineState where
  db : Db
  cache : StockCache
  now : Int
  deriving Repr, DecidableEq

/-- Sum of a list of rationals (COALESCE(SUM(..), 0)). -/
def sumQ (l : List ℚ) : ℚ := l.foldr (· + ·) 0

/-- SQL predicate m.fecha <= :fechaHasta, absent when no bound was given. -/
def matchesFecha (fechaHasta : Option Int) (fecha : Int) : Bool :=
  match fechaHasta with
  | none => true
  | some fh => fecha ≤ fh

/-- INNER JOIN md.movimiento: resolve the movement row of a line item. -/
def Db.findMovimiento (db : Db) (idMovimiento : Nat) : Option Movimiento :=
  db.movimientos.find? (fun m => m.id == idMovimiento)

/-- Lot lookup by primary key (loteRepository.findOne). -/
def Db.findLote (db : Db) (idLote : Nat) : Option Lote :=
  db.lotes.find? (fun l => l.id == idLote)

/-- movimiento_detalle lookup by primary key (the join
ds.id_movimiento_detalle = md.id). -/
def Db.findDetalle (db : Db) (idDetalle : Nat) : Option MovimientoDetalle :=
  db.movimientoDetalles.find? (fun md => md.id == idDetalle)

/-- The ENTRADA sum of calcularStockLote: PROCESADO ENTRADA line-item
quantities of the lot, date bounded. -/
def entradasLote (db : Db) (idLote : Nat) (fechaHasta : Option Int) : ℚ :=
  sumQ ((db.movimientoDetalles.filter (fun md =>
    md.idLote == some idLote &&
      match db.findMovimiento md.idMovimiento with
      | some m => m.estado == .PROCESADO && m.tipo == .ENTRADA &&
          matchesFecha fechaHasta m.fecha
      | none => false)).map (·.cantidad))

/-- The AJUSTE sum of calcularStockLote. -/
def ajustesLote (db : Db) (idLote : Nat) (fechaHasta : Option Int) : ℚ :=
  sumQ ((db.movimientoDetalles.filter (fun md =>
    md.idLote == some idLote &&
      match db.findMovimiento md.idMovimiento with
      | some m => m.estado == .PROCESADO && m.tipo == .AJUSTE &&
          matchesFecha fechaHasta m.fecha
      | none => false)).map (·.cantidad))

/-- The SALIDA sum of calcularStockLote: exit-allocation quantities
(detalle_salidas joined through their line item) for the lot. -/
def salidasLote (db : Db) (idLote : Nat) (fechaHasta : Option Int) : ℚ :=
  sumQ ((db.detallesSalida.filter (fun ds =>
    ds.idLote == idLote &&
      match db.findDetalle ds.idMovimientoDetalle with
      | some md =>
        match db.findMovimiento md.idMovimiento with
        | some m => m.estado == .PROCESADO && m.tipo == .SALIDA &&
            matchesFecha fechaHasta m.fecha
        | none => false
      | none => false)).map (·.cantidad))

/-- The INV-INIT probe of calcularStockLote: date of the first PROCESADO
movement tagged INV-INIT that references the lot (getRawOne). -/
def invInitFecha (db : Db) (idLote : Nat) : Option Int :=
  ((db.movimientoDetalles.filter (fun md =>
    md.idLote == some idLote &&
      match db.findMovimiento md.idMovimiento with
      | some m => m.estado == .PROCESADO &&
          m.numeroDocumento == some "INV-INIT"
      | none => false)).head?).bind
    (fun md => (db.findMovimiento md.idMovimiento).map (·.fecha))

/-- Stable insertion of one element: the element goes after every existing
element the comparator says is strictly smaller, and before the first one
that is not (so before equal elements inserted earlier from further right,
which preserves the original relative order of ties, as the stable
Array.prototype.sort and the ORDER BY of the database do). -/
def insertStable (lt : α → α → Bool) (x : α) : List α → List α
  | [] => [x]
  | y :: ys => if lt y x then y :: insertStable lt x ys else x :: y :: ys

/-- Stable sort by a strict comparator (JS stable sort / SQL ORDER BY). -/
def sortStable (lt : α → α → Bool) : List α → List α
  | [] => []
  | x :: xs => insertStable lt x (sortStable lt xs)

/-- Comparator of loteRepository.find with order fechaIngreso ASC. -/
def ltFechaLote (a b : Lote) : Bool := a.fechaIngreso < b.fechaIngreso

/-- The lots of one inventory position as the repository returns them:
filtered by inventory and ordered by fechaIngreso ascending (ties keep
table order, which the query leaves unspecified). -/
def lotesDeInventario (db : Db) (idInventario : Nat) : List Lote :=
  sortStable ltFechaLote (db.lotes.filter (fun l => l.idInventario == idInventario))

/-- The cantidadActual computed by calcularStockLote before flooring:
ledger replay when any of the three sums is positive, otherwise the
virgin-lot fallback on the stored initial quantity guarded by the
INV-INIT / ingress date when a cutoff date is given. -/
def cantidadActualLote (db : Db) (lote : Lote) (fechaHasta : Option Int) : ℚ :=
  let entradas := entradasLote db lote.id fechaHasta
  let salidas := salidasLote db lote.id fechaHasta
  let ajustes := ajustesLote db lote.id fechaHasta
  if 0 < entradas ∨ 0 < salidas ∨ 0 < ajustes then
    entradas - salidas + ajustes
  else
    match fechaHasta with
    | none => lote.cantidadInicial
    | some fh =>
      match invInitFecha db lote.id with
      | some f => if f ≤ fh then lote.cantidadInicial else 0
      | none => if lote.fechaIngreso ≤ fh then lote.cantidadInicial else 0

/-- The cache-free core of calcularStockLote: lot lookup, ledger sums,
fallback, floored at zero. -/
def stockLoteResult (db : Db) (idLote : Nat) (fechaHasta : Option Int) :
    Option LoteStockResult :=
  match db.findLote idLote with
  | none => none
  | some lote => some
      { idLote := lote.id
        cantidadActual := max 0 (cantidadActualLote db lote fechaHasta)
        cantidadInicial := lote.cantidadInicial
        costoUnitario := lote.costoUnitario
        fechaIngreso := lote.fechaIngreso }

/-- StockCalculationService.calcularStockLote: serve from cache when an
entry exists and no cutoff date was given, otherwise compute from the
ledger and store the result in the cache. -/
def calcularStockLote (s : EngineState) (idLote : Nat)
    (fechaHasta : Option Int) : Option LoteStockResult × EngineState :=
  match s.cache.getLoteStock idLote fechaHasta, fechaHasta with
  | some cached, none => (some cached, s)
  | _, _ =>
    match stockLoteResult s.db idLote fechaHasta with
    | none => (none, s)
    | some result =>
        (some result,
         { s with cache := s.cache.setLoteStock idLote fechaHasta result })

/-- The per-lot loop of calcularStockInventario: threads the engine state
through calcularStockLote for each lot, keeps the lots with positive
current quantity and accumulates stockTotal and valorTotal. -/
def stockLotesFold (fechaHasta : Option Int) :
    EngineState → List Lote → (List LoteStockResult × ℚ × ℚ × EngineState)
  | s, [] => ([], 0, 0, s)
  | s, l :: ls =>
    let (r, s1) := calcularStockLote s l.id fechaHasta
    match r with
    | some stockLote =>
      if 0 < stockLote.cantidadActual then
        let (rest, st, vt, s2) := stockLotesFold fechaHasta s1 ls
        (stockLote :: rest, stockLote.cantidadActual + st,
         stockLote.cantidadActual * stockLote.costoUnitario + vt, s2)
      else stockLotesFold fechaHasta s1 ls
    | none => stockLotesFold fechaHasta s1 ls

/-- The lot-zero adjustment of calcularStockInventario: PROCESADO SALIDA
exit-allocation quantities of the inventory recorded with id_lote = 0,
date bounded. -/
def salidasFicticias (db : Db) (idInventario : Nat)
    (fechaHasta : Option Int) : ℚ :=
  sumQ ((db.detallesSalida.filter (fun ds =>
    ds.idLote == 0 &&
      match db.findDetalle ds.idMovimientoDetalle with
      | some md =>
        md.idInventario == idInventario &&
          match db.findMovimiento md.idMovimiento with
          | some m => m.estado == .PROCESADO && m.tipo == .SALIDA &&
              matchesFecha fechaHasta m.fecha
          | none => false
      | none => false)).map (·.cantidad))

/-- StockCalculationService.calcularStockInventario: cached results are
used only for queries without a cutoff date and come back with an empty
lots list; otherwise every lot of the position is replayed, the lot-zero
exits are subtracted (floored at zero), the weighted average cost is
valorTotal over the adjusted total, and the result is cached. -/
def calcularStockInventario (s : EngineState) (idInventario : Nat)
    (fechaHasta : Option Int) : Option InventarioStockResult × EngineState :=
  match s.cache.getInventarioStock idInventario fechaHasta, fechaHasta with
  | some cached, none =>
    if s.db.inventarios.contains idInventario then
      (some { idInventario := idInventario
              stockActual := cached.stockActual
              costoPromedioActual := cached.costoPromedioActual
              lotes := [] }, s)
    else (none, s)
  | _, _ =>
    if s.db.inventarios.contains idInventario then
      let (lotesConStock, stockTotal, valorTotal, s1) :=
        stockLotesFold fechaHasta s (lotesDeInventario s.db idInventario)
      let stockTotalAjustado :=
        max 0 (stockTotal - salidasFicticias s.db idInventario fechaHasta)
      let costoPromedioActual :=
        if 0 < stockTotalAjustado then valorTotal / stockTotalAjustado else 0
      let result : InventarioStockResult :=
        { idInventario := idInventario
          stockActual := stockTotalAjustado
          costoPromedioActual := costoPromedioActual
          lotes := lotesConStock }
      let entry : InvCacheEntry :=
        { stockActual := stockTotalAjustado
          costoPromedioActual := costoPromedioActual
          valorTotal := stockTotalAjustado * costoPromedioActual }
      (some result,
       { s1 with cache := s1.cache.setInventarioStock idInventario fechaHasta entry })
    else (none, s)

/-- Comparator of obtenerLotesDisponiblesFIFO: ingress date only
((a, b) => a.fechaIngreso.getTime() - b.fechaIngreso.getTime()). -/
def ltFechaDisponible (a b : LoteDisponible) : Bool :=
  a.fechaIngreso < b.fechaIngreso

/-- StockCalculationService.obtenerLotesDisponiblesFIFO: the lots of the
position with positive quantity, stably sorted by ingress date alone. -/
def obtenerLotesDisponiblesFIFO (s : EngineState) (idInventario : Nat)
    (fechaHasta : Option Int) : List LoteDisponible × EngineState :=
  let (r, s1) := calcularStockInventario s idInventario fechaHasta
  match r with
  | none => ([], s1)
  | some stockInventario =>
    (sortStable ltFechaDisponible
      ((stockInventario.lotes.filter (fun l => 0 < l.cantidadActual)).map
        (fun l => { idLote := l.idLote
                    cantidadDisponible := l.cantidadActual
                    costoUnitario := l.costoUnitario
                    fechaIngreso := l.fechaIngreso })), s1)

/-- One row of the consumption detail returned by calcularConsumoFIFO. -/
structure ConsumoLote where
  idLote : Nat
  cantidad : ℚ
  costoUnitario : ℚ
  deriving Repr, DecidableEq

/-- The greedy loop of calcularConsumoFIFO: walk the available lots in
order, take min(remaining, available) from each while something remains;
returns the consumption list and the final remaining quantity. -/
def consumirLotes : List LoteDisponible → ℚ → List ConsumoLote × ℚ
  | [], restante => ([], restante)
  | l :: ls, restante =>
    if restante ≤ 0 then ([], restante)
    else
      let cantidadDelLote := min restante l.cantidadDisponible
      let (rest, r) := consumirLotes ls (restante - cantidadDelLote)
      ({ idLote := l.idLote
         cantidad := cantidadDelLote
         costoUnitario := l.costoUnitario } :: rest, r)

/-- StockCalculationService.calcularConsumoFIFO: greedy FIFO consumption;
throws (Stock insuficiente) when something remains unsatisfied. -/
def calcularConsumoFIFO (s : EngineState) (idInventario : Nat)
    (cantidadAConsumir : ℚ) (fechaHasta : Option Int) :
    Except String (List ConsumoLote) × EngineState :=
  let (lotesDisponibles, s1) :=
    obtenerLotesDisponiblesFIFO s idInventario fechaHasta
  let (consumo, cantidadRestante) := consumirLotes lotesDisponibles cantidadAConsumir
  (if 0 < cantidadRestante then .error "Stock insuficiente" else .ok consumo, s1)

/-- StockCalculationService.calcularCostoPromedio: the weighted average
cost of the position (0 when the position is missing or the cost is 0). -/
def calcularCostoPromedio (s : EngineState) (idInventario : Nat)
    (fechaHasta : Option Int) : ℚ × EngineState :=
  let (r, s1) := calcularStockInventario s idInventario fechaHasta
  (((r.map (·.costoPromedioActual)).getD 0), s1)

/-- StockCalculationService.calcularCostoUnitarioVenta: weighted average
cost for the PROMEDIO method; for FIFO, the cost-weighted average over the
lots a dry FIFO consumption would take. -/
def calcularCostoUnitarioVenta (s : EngineState) (idInventario : Nat)
    (cantidadVenta : ℚ) (metodoValoracion : MetodoValoracion)
    (fechaHasta : Option Int) : Except String ℚ × EngineState :=
  match metodoValoracion with
  | .promedio =>
    let (c, s1) := calcularCostoPromedio s idInventario fechaHasta
    (.ok c, s1)
  | .fifo =>
    let (r, s1) := calcularConsumoFIFO s idInventario cantidadVenta fechaHasta
    match r with
    | .error e => (.error e, s1)
    | .ok consumo =>
      let costoTotal := sumQ (consumo.map (fun i => i.cantidad * i.costoUnitario))
      let cantidadTotal := sumQ (consumo.map (·.cantidad))
      (.ok (if 0 < cantidadTotal then costoTotal / cantidadTotal else 0), s1)

/-- One line of a commercial document as the engine reads it (entity
ComprobanteDetalle restricted to the fields procesarLotesComprobante
uses: the inventory reference, quantity and unit price). -/
structure ComprobanteDetalle where
  inventarioId : Nat
  cantidad : ℚ
  precioUnitario : ℚ
  deriving Repr, DecidableEq

/-- One element of the lotes list procesarLotesComprobante returns. -/
structure LoteUsado where
  idLote : Nat
  costoUnitarioDeLote : ℚ
  cantidad : ℚ
  deriving Repr, DecidableEq

/-- LoteCreationService.registrarLoteCompra: validates the inventory
reference and the quantity / price of the line, then saves a new lot with
zero stored initial quantity at the price of the line (ingress date = the
document date, or now when absent) and invalidates the cache of the
inventory. The product / warehouse presence checks of the source are
subsumed by the inventory-exists check (the embedded inventory row carries
no further payload). The generated numeroLote string is dropped. -/
def registrarLoteCompra (s : EngineState) (detalle : ComprobanteDetalle)
    (fechaEmision : Option Int) : Except String Lote × EngineState :=
  if ¬ s.db.inventarios.contains detalle.inventarioId then
    (.error "Inventario no encontrado", s)
  else if detalle.cantidad ≤ 0 then
    (.error "La cantidad debe ser mayor a 0", s)
  else if detalle.precioUnitario < 0 then
    (.error "El precio unitario no puede ser negativo", s)
  else
    let lote : Lote :=
      { id := s.db.nextLoteId
        idInventario := detalle.inventarioId
        cantidadInicial := 0
        costoUnitario := detalle.precioUnitario
        fechaIngreso := fechaEmision.getD s.now }
    let db1 := { s.db with lotes := s.db.lotes ++ [lote],
                           nextLoteId := s.db.nextLoteId + 1 }
    (.ok lote,
     { s with db := db1,
              cache := s.cache.invalidateInventario detalle.inventarioId })

/-- LoteCreationService.procesarLotesComprobante: for COMPRA lines, create
a purchase lot and report the purchase price and the full quantity on the
new lot; for every other operation kind, report the unit cost computed
under the configured valuation method and record the physical consumption
computed by FIFO, then invalidate the cache of the inventory. A thrown
error aborts the whole call (the source rethrows from its catch). -/
def procesarLotesComprobante (s : EngineState)
    (detalles : List ComprobanteDetalle) (tipoOperacion : String)
    (metodoValoracion : MetodoValoracion) (fechaEmision : Option Int) :
    Except String (List ℚ × List LoteUsado) × EngineState :=
  match detalles with
  | [] => (.ok ([], []), s)
  | detalle :: rest =>
    if tipoOperacion == "COMPRA" then
      match registrarLoteCompra s detalle fechaEmision with
      | (.error e, s1) => (.error e, s1)
      | (.ok loteCreado, s1) =>
        match procesarLotesComprobante s1 rest tipoOperacion metodoValoracion fechaEmision with
        | (.error e, s2) => (.error e, s2)
        | (.ok (costos, lotesUsados), s2) =>
          (.ok (detalle.precioUnitario :: costos,
                { idLote := loteCreado.id
                  costoUnitarioDeLote := detalle.precioUnitario
                  cantidad := detalle.cantidad } :: lotesUsados), s2)
    else
      let (r1, s1) := calcularCostoUnitarioVenta s detalle.inventarioId
        detalle.cantidad metodoValoracion fechaEmision
      match r1 with
      | .error e => (.error e, s1)
      | .ok costoUnitario =>
        let (r2, s2) := calcularConsumoFIFO s1 detalle.inventarioId
          detalle.cantidad fechaEmision
        match r2 with
        | .error e => (.error e, s2)
        | .ok consumoFIFO =>
          let s3 := { s2 with
            cache := s2.cache.invalidateInventario detalle.inventarioId }
          match procesarLotesComprobante s3 rest tipoOperacion metodoValoracion fechaEmision with
          | (.error e, s4) => (.error e, s4)
          | (.ok (costos, lotesUsados), s4) =>
            (.ok (costoUnitario :: costos,
                  consumoFIFO.map (fun consumo =>
                    { idLote := consumo.idLote
                      costoUnitarioDeLote := consumo.costoUnitario
                      cantidad := consumo.cantidad }) ++ lotesUsados), s4)

/-! ### Kardex generation (KardexCalculationService) -/

/-- One raw row of obtenerMovimientosInventario (the getRawMany select of
line items joined with their movement; the comprobante join fields that
are only echoed into labels are reduced to tipoOperacion and the document
number). -/
structure RawMovRow where
  idMovimientoDetalle : Nat
  cantidad : ℚ
  idLote : Option Nat
  idInventario : Nat
  idMovimiento : Nat
  tipoMovimiento : TipoMovimiento
  fecha : Int
  numeroDocumento : Option String
  tipoOperacion : Option String
  deriving Repr, DecidableEq

/-- Comparator of the ORDER BY m.fecha ASC, m.id ASC of
obtenerMovimientosInventario. -/
def ltFechaMovRow (a b : RawMovRow) : Bool :=
  a.fecha < b.fecha ∨ (a.fecha = b.fecha ∧ a.idMovimiento < b.idMovimiento)

/-- KardexCalculationService.obtenerMovimientosInventario: all PROCESADO
line items of the inventory with movement date in the window, ordered by
(date, movement id) ascending. -/
def obtenerMovimientosInventario (db : Db) (idInventario : Nat)
    (fechaDesde fechaHasta : Int) : List RawMovRow :=
  sortStable ltFechaMovRow (db.movimientoDetalles.filterMap (fun md =>
    if md.idInventario == idInventario then
      match db.findMovimiento md.idMovimiento with
      | some m =>
        if fechaDesde ≤ m.fecha ∧ m.fecha ≤ fechaHasta ∧ m.estado = .PROCESADO then
          some { idMovimientoDetalle := md.id
                 cantidad := md.cantidad
                 idLote := md.idLote
                 idInventario := md.idInventario
                 idMovimiento := m.id
                 tipoMovimiento := m.tipo
                 fecha := m.fecha
                 numeroDocumento := m.numeroDocumento
                 tipoOperacion := m.tipoOperacion }
        else none
      | none => none
    else none))

/-- Running balance of the Kardex replay ({cantidad, costoUnitario,
valorTotal}). -/
structure Saldo where
  cantidad : ℚ
  costoUnitario : ℚ
  valorTotal : ℚ
  deriving Repr, DecidableEq

/-- KardexCalculationService.calcularSaldoInicial: the stock of the
position at the end of the day before fechaDesde; {0,0,0} when missing or
non-positive. -/
def calcularSaldoInicial (s : EngineState) (idInventario : Nat)
    (fechaDesde : Int) : Saldo × EngineState :=
  let (r, s1) := calcularStockInventario s idInventario (some (fechaDesde - 1))
  match r with
  | some stockInventario =>
    if 0 < stockInventario.stockActual then
      ({ cantidad := stockInventario.stockActual
         costoUnitario := stockInventario.costoPromedioActual
         valorTotal := stockInventario.stockActual * stockInventario.costoPromedioActual }, s1)
    else (⟨0, 0, 0⟩, s1)
  | none => (⟨0, 0, 0⟩, s1)

/-- One per-lot exit detail of a Kardex movement (interface
DetalleSalidaCalculado). -/
structure DetalleSalidaCalculado where
  idLote : Nat
  cantidad : ℚ
  costoUnitarioDeLote : ℚ
  costoTotal : ℚ
  deriving Repr, DecidableEq

/-- One calculated Kardex report row (interface KardexMovement, keeping
the quantitative fields and the identifiers; display-only labels are
dropped; a missing detallesSalida is the empty list). -/
structure KardexMovement where
  fecha : Int
  tipoMovimiento : TipoMovimiento
  tipoOperacion : Option String
  numeroDocumento : Option String
  cantidad : ℚ
  costoUnitario : ℚ
  costoTotal : ℚ
  cantidadSaldo : ℚ
  costoUnitarioSaldo : ℚ
  valorTotalSaldo : ℚ
  idInventario : Nat
  idMovimiento : Nat
  idMovimientoDetalle : Nat
  detallesSalida : List DetalleSalidaCalculado
  deriving Repr, DecidableEq

/-- The balance a report row leaves behind (its saldo fields). -/
def saldoAfter (m : KardexMovement) : Saldo :=
  ⟨m.cantidadSaldo, m.costoUnitarioSaldo, m.valorTotalSaldo⟩

/-- KardexCalculationService.obtenerCostoUnitarioEntrada: the stored unit
cost of the referenced lot; 0 for a falsy (absent or zero) lot id or a
missing lot. -/
def obtenerCostoUnitarioEntrada (db : Db) (idLote : Option Nat) : ℚ :=
  match idLote with
  | none => 0
  | some i => if i = 0 then 0 else ((db.findLote i).map (·.costoUnitario)).getD 0

/-- KardexCalculationService.procesarEntrada. -/
def procesarEntrada (db : Db) (mov : RawMovRow) (saldoAnterior : Saldo) :
    KardexMovement :=
  let cantidad := mov.cantidad
  let costoUnitario := obtenerCostoUnitarioEntrada db mov.idLote
  let costoTotal := cantidad * costoUnitario
  let nuevaCantidad := saldoAnterior.cantidad + cantidad
  let nuevoValorTotal := saldoAnterior.valorTotal + costoTotal
  let nuevoCostoUnitario :=
    if 0 < nuevaCantidad then nuevoValorTotal / nuevaCantidad else 0
  { fecha := mov.fecha
    tipoMovimiento := mov.tipoMovimiento
    tipoOperacion := mov.tipoOperacion
    numeroDocumento := mov.numeroDocumento
    cantidad := cantidad
    costoUnitario := costoUnitario
    costoTotal := costoTotal
    cantidadSaldo := nuevaCantidad
    costoUnitarioSaldo := nuevoCostoUnitario
    valorTotalSaldo := nuevoValorTotal
    idInventario := mov.idInventario
    idMovimiento := mov.idMovimiento
    idMovimientoDetalle := mov.idMovimientoDetalle
    detallesSalida := [] }

/-- One in-memory working lot of the FIFO replay (the values of the
lotesDisponiblesTemporales map). -/
structure LoteTemp where
  cantidadDisponible : ℚ
  costoUnitario : ℚ
  fechaIngreso : Int
  deriving Repr, DecidableEq

/-- The working lot map of the FIFO replay: a JS Map, i.e. association
list in key insertion order. -/
abbrev WorkingSet := List (Nat × LoteTemp)

/-- Map.get of the working set. -/
def wsGet (ws : WorkingSet) (idLote : Nat) : Option LoteTemp :=
  (ws.find? (fun e => e.1 == idLote)).map (·.2)

/-- Map.set of the working set: replace in place, else append (JS Map
keeps insertion order). -/
def wsSet : WorkingSet → Nat → LoteTemp → WorkingSet
  | [], idLote, v => [(idLote, v)]
  | (k, w) :: rest, idLote, v =>
    if k == idLote then (idLote, v) :: rest else (k, w) :: wsSet rest idLote v

/-- KardexCalculationService.actualizarLoteTemporalEntrada. -/
def actualizarLoteTemporalEntrada (ws : WorkingSet) (idLote : Nat)
    (cantidad costoUnitario : ℚ) (fechaIngreso : Int) : WorkingSet :=
  match wsGet ws idLote with
  | some lt => wsSet ws idLote
      { lt with cantidadDisponible := lt.cantidadDisponible + cantidad }
  | none => wsSet ws idLote
      { cantidadDisponible := cantidad
        costoUnitario := costoUnitario
        fechaIngreso := fechaIngreso }

/-- KardexCalculationService.inicializarLotesTemporales: load the working
set from the lots available at the end of the day before the window. -/
def inicializarLotesTemporales (s : EngineState) (idInventario : Nat)
    (fechaInicio : Int) : WorkingSet × EngineState :=
  let (lotesDisponibles, s1) :=
    obtenerLotesDisponiblesFIFO s idInventario (some (fechaInicio - 1))
  (lotesDisponibles.foldl (fun ws l =>
     wsSet ws l.idLote ⟨l.cantidadDisponible, l.costoUnitario, l.fechaIngreso⟩) [],
   s1)

/-- Comparator of the sort in calcularCostoFIFO: ingress date first, lot
id on equal dates (FIFO estricto). -/
def ltFechaId (a b : LoteDisponible) : Bool :=
  a.fechaIngreso < b.fechaIngreso ∨
    (a.fechaIngreso = b.fechaIngreso ∧ a.idLote < b.idLote)

/-- The snapshot array calcularCostoFIFO builds from the working set:
entries with positive quantity, sorted by (ingress date, lot id). -/
def snapshotLotes (ws : WorkingSet) : List LoteDisponible :=
  sortStable ltFechaId
    ((ws.filter (fun e => 0 < e.2.cantidadDisponible)).map (fun e =>
      { idLote := e.1
        cantidadDisponible := e.2.cantidadDisponible
        costoUnitario := e.2.costoUnitario
        fechaIngreso := e.2.fechaIngreso }))

/-- The greedy loop of calcularCostoFIFO over the snapshot. -/
def consumirDetalles : List LoteDisponible → ℚ → List DetalleSalidaCalculado
  | [], _ => []
  | l :: ls, restante =>
    if restante ≤ 0 then []
    else
      let cantidadDelLote := min restante l.cantidadDisponible
      { idLote := l.idLote
        cantidad := cantidadDelLote
        costoUnitarioDeLote := l.costoUnitario
        costoTotal := cantidadDelLote * l.costoUnitario } ::
        consumirDetalles ls (restante - cantidadDelLote)

/-- KardexCalculationService.calcularCostoFIFO: consume against the
working set snapshot in (date, id) order, return the per-lot details and
the average cost of the exit, decrementing the consumed lots in the
working set. -/
def calcularCostoFIFO (ws : WorkingSet) (cantidadSalida : ℚ) :
    (ℚ × List DetalleSalidaCalculado) × WorkingSet :=
  let detallesSalida := consumirDetalles (snapshotLotes ws) cantidadSalida
  let costoTotalSalida := sumQ (detallesSalida.map (·.costoTotal))
  let ws1 := detallesSalida.foldl (fun w d =>
    match wsGet w d.idLote with
    | some lt => wsSet w d.idLote
        { lt with cantidadDisponible := lt.cantidadDisponible - d.cantidad }
    | none => w) ws
  ((if 0 < cantidadSalida then costoTotalSalida / cantidadSalida else 0,
    detallesSalida), ws1)

/-- One per-lot Kardex row of a FIFO exit, with its incremental balance
computed from the balance left by the previous per-lot row. -/
def salidaStepFIFO (mov : RawMovRow) (saldo : Saldo)
    (d : DetalleSalidaCalculado) : KardexMovement :=
  let nuevaCantidad := max 0 (saldo.cantidad - d.cantidad)
  let nuevoValorTotal := max 0 (saldo.valorTotal - d.costoTotal)
  let nuevoCostoUnitario :=
    if 0 < nuevaCantidad then nuevoValorTotal / nuevaCantidad else 0
  { fecha := mov.fecha
    tipoMovimiento := mov.tipoMovimiento
    tipoOperacion := mov.tipoOperacion
    numeroDocumento := mov.numeroDocumento
    cantidad := d.cantidad
    costoUnitario := d.costoUnitarioDeLote
    costoTotal := d.costoTotal
    cantidadSaldo := nuevaCantidad
    costoUnitarioSaldo := nuevoCostoUnitario
    valorTotalSaldo := nuevoValorTotal
    idInventario := mov.idInventario
    idMovimiento := mov.idMovimiento
    idMovimientoDetalle := mov.idMovimientoDetalle
    detallesSalida := [d] }

/-- The per-lot loop of the FIFO branch of procesarSalida: one Kardex row
per consumed lot, each chained on the balance of its predecessor. -/
def movimientosPorLote (mov : RawMovRow) :
    Saldo → List DetalleSalidaCalculado → List KardexMovement
  | _, [] => []
  | saldo, d :: ds =>
    let m := salidaStepFIFO mov saldo d
    m :: movimientosPorLote mov (saldoAfter m) ds

/-- The balance after the last row of a list, or the starting balance for
an empty list. -/
def lastSaldo (saldo : Saldo) (l : List KardexMovement) : Saldo :=
  match l.getLast? with
  | some m => saldoAfter m
  | none => saldo

/-- The single Kardex row of a PROMEDIO exit: cost locked at the running
average, balance floored at zero. -/
def salidaPromedio (mov : RawMovRow) (saldoAnterior : Saldo) : KardexMovement :=
  let cantidad := mov.cantidad
  let costoUnitario := saldoAnterior.costoUnitario
  let costoTotal := cantidad * costoUnitario
  let nuevaCantidad := max 0 (saldoAnterior.cantidad - cantidad)
  let nuevoValorTotal := max 0 (saldoAnterior.valorTotal - costoTotal)
  let nuevoCostoUnitario :=
    if 0 < nuevaCantidad then nuevoValorTotal / nuevaCantidad else 0
  { fecha := mov.fecha
    tipoMovimiento := mov.tipoMovimiento
    tipoOperacion := mov.tipoOperacion
    numeroDocumento := mov.numeroDocumento
    cantidad := cantidad
    costoUnitario := costoUnitario
    costoTotal := costoTotal
    cantidadSaldo := nuevaCantidad
    costoUnitarioSaldo := nuevoCostoUnitario
    valorTotalSaldo := nuevoValorTotal
    idInventario := mov.idInventario
    idMovimiento := mov.idMovimiento
    idMovimientoDetalle := mov.idMovimientoDetalle
    detallesSalida := [] }

/-- KardexCalculationService.procesarSalida: PROMEDIO locks the exit cost
at the running average and returns a single row; FIFO consumes against
the working set and returns one row per lot (an array in the source,
hence the sum type). -/
def procesarSalida (mov : RawMovRow) (saldoAnterior : Saldo)
    (metodoValoracion : MetodoValoracion) (ws : WorkingSet) :
    (KardexMovement ⊕ List KardexMovement) × WorkingSet :=
  match metodoValoracion with
  | .promedio => (.inl (salidaPromedio mov saldoAnterior), ws)
  | .fifo =>
    (.inr (movimientosPorLote mov saldoAnterior
      ((calcularCostoFIFO ws mov.cantidad).1.2)),
     (calcularCostoFIFO ws mov.cantidad).2)

/-- KardexCalculationService.esMovimientoEntrada. -/
def esMovimientoEntrada (tipoMovimiento : TipoMovimiento)
    (tipoOperacion : Option String) : Bool :=
  tipoOperacion == some "COMPRA" || tipoMovimiento == .ENTRADA

/-- The working-set update of the entry branch of procesarMovimientos: in
FIFO mode a truthy lot reference adds the entry quantity (at the entry
cost and date) to the working lot. -/
def wsEntradaFIFO (db : Db) (metodoValoracion : MetodoValoracion)
    (mov : RawMovRow) (saldo : Saldo) (ws : WorkingSet) : WorkingSet :=
  if metodoValoracion == .fifo then
    match mov.idLote with
    | some i =>
      if i ≠ 0 then
        actualizarLoteTemporalEntrada ws i (procesarEntrada db mov saldo).cantidad
          (procesarEntrada db mov saldo).costoUnitario
          (procesarEntrada db mov saldo).fecha
      else ws
    | none => ws
  else ws

/-- The replay loop of KardexCalculationService.procesarMovimientos:
entries update the balance additively (and the working set in FIFO mode),
exits go through procesarSalida; a FIFO exit appends its whole per-lot
array and moves the balance to the last row of the array when there is
one. Returns the emitted rows, the final balance and the final working
set. -/
def procesarMovimientosAux (db : Db) (metodoValoracion : MetodoValoracion) :
    List RawMovRow → Saldo → WorkingSet →
      List KardexMovement × Saldo × WorkingSet
  | [], saldo, ws => ([], saldo, ws)
  | mov :: rest, saldo, ws =>
    if esMovimientoEntrada mov.tipoMovimiento mov.tipoOperacion then
      let mk := procesarEntrada db mov saldo
      let ws1 := wsEntradaFIFO db metodoValoracion mov saldo ws
      let (trace, saldoFinal, wsFinal) :=
        procesarMovimientosAux db metodoValoracion rest (saldoAfter mk) ws1
      (mk :: trace, saldoFinal, wsFinal)
    else
      match procesarSalida mov saldo metodoValoracion ws with
      | (.inl mk, ws1) =>
        let (trace, saldoFinal, wsFinal) :=
          procesarMovimientosAux db metodoValoracion rest (saldoAfter mk) ws1
        (mk :: trace, saldoFinal, wsFinal)
      | (.inr mks, ws1) =>
        let nuevoSaldo := lastSaldo saldo mks
        let (trace, saldoFinal, wsFinal) :=
          procesarMovimientosAux db metodoValoracion rest nuevoSaldo ws1
        (mks ++ trace, saldoFinal, wsFinal)

/-- KardexCalculationService.procesarMovimientos (the emitted rows). -/
def procesarMovimientos (db : Db) (metodoValoracion : MetodoValoracion)
    (rows : List RawMovRow) (saldoInicial : Saldo) (ws : WorkingSet) :
    List KardexMovement :=
  (procesarMovimientosAux db metodoValoracion rows saldoInicial ws).1

/-- The result of generarKardex (interface KardexResult; the echoed
product / warehouse payload is dropped). -/
structure KardexResult where
  idInventario : Nat
  saldoInicial : Saldo
  movimientos : List KardexMovement
  stockFinal : ℚ
  costoUnitarioFinal : ℚ
  valorTotalFinal : ℚ
  deriving Repr, DecidableEq

/-- KardexCalculationService.generarKardex: resolve the inventory, fetch
the window rows, compute the opening balance, replay (seeding the FIFO
working set when the method is FIFO), and derive the final figures from
the last row (the JS short-circuit of `x || fallback` makes a zero final
balance fall back to the opening value). -/
def generarKardex (s : EngineState) (idInventario : Nat)
    (fechaDesde fechaHasta : Int) (metodoValoracion : MetodoValoracion) :
    Option KardexResult × EngineState :=
  if ¬ s.db.inventarios.contains idInventario then (none, s)
  else
    let movimientos := obtenerMovimientosInventario s.db idInventario fechaDesde fechaHasta
    let (saldoInicial, s1) := calcularSaldoInicial s idInventario fechaDesde
    let (ws0, s2) :=
      if metodoValoracion == .fifo then
        inicializarLotesTemporales s1 idInventario fechaDesde
      else ([], s1)
    let movimientosKardex :=
      procesarMovimientos s2.db metodoValoracion movimientos saldoInicial ws0
    let stockFinal := match movimientosKardex.getLast? with
      | some m => if m.cantidadSaldo = 0 then saldoInicial.cantidad else m.cantidadSaldo
      | none => saldoInicial.cantidad
    let costoUnitarioFinal := match movimientosKardex.getLast? with
      | some m => if m.costoUnitarioSaldo = 0 then saldoInicial.costoUnitario
                  else m.costoUnitarioSaldo
      | none => saldoInicial.costoUnitario
    (some { idInventario := idInventario
            saldoInicial := saldoInicial
            movimientos := movimientosKardex
            stockFinal := stockFinal
            costoUnitarioFinal := costoUnitarioFinal
            valorTotalFinal := stockFinal * costoUnitarioFinal }, s2)

/-- The ledger state InventarioService.create leaves behind after seeding
one inventory position with an initial-balance lot: the lot (quantity q,
unit cost c, ingress date d — the lot row itself is modelled from the
spec, §4.3, because InventarioLoteService.create is not among the given
sources), one PROCESADO ENTRADA movement tagged INV-INIT dated d, and one
line item for the full quantity on the lot. The cache starts empty. -/
def seededDb (idInventario idLote idMovimiento idDetalle : Nat)
    (q c : ℚ) (d : Int) : Db :=
  { inventarios := [idInventario]
    lotes := [⟨idLote, idInventario, q, c, d⟩]
    movimientos := [⟨idMovimiento, .ENTRADA, d, some "INV-INIT", .PROCESADO, none⟩]
    movimientoDetalles := [⟨idDetalle, idMovimiento, idInventario, some idLote, q⟩]
    detallesSalida := []
    nextLoteId := idLote + 1 }

def seededState (idInventario idLote idMovimiento idDetalle : Nat)
    (q c : ℚ) (d : Int) : EngineState :=
  { db := seededDb idInventario idLote idMovimiento idDetalle q c d
    cache := StockCache.empty
    now := d }

/-- Whether an Except value is the thrown-error case. -/
def esError : Except ε α → Bool
  | .error _ => true
  | .ok _ => false

/-- A ledger whose only movement on lot 1 is a negative adjustment: the
lot ends at quantity 7 (its virgin fallback), and in particular not
negative; used as the C10 witness. -/
def cxNeg : EngineState :=
  { db := { inventarios := [1]
            lotes := [⟨1, 1, 7, 4, 0⟩]
            movimientos := [⟨1, .AJUSTE, 0, none, .PROCESADO, none⟩]
            movimientoDetalles := [⟨1, 1, 1, some 1, -5⟩]
            detallesSalida := []
            nextLoteId := 2 }
    cache := StockCache.empty
    now := 0 }

/-- Claim-side aggregation: the per-lot results with positive computed
quantity, over an explicit lot list. -/
def lotesConStockSpec (db : Db) (fechaHasta : Option Int) (lotes : List Lote) :
    List LoteStockResult :=
  lotes.filterMap (fun l =>
    match stockLoteResult db l.id fechaHasta with
    | some r => if 0 < r.cantidadActual then some r else none
    | none => none)

/-- Claim-side total quantity over the lots of the position with positive
remaining quantity. -/
def sumStockPositivo (db : Db) (idInventario : Nat) (fechaHasta : Option Int) : ℚ :=
  sumQ ((lotesConStockSpec db fechaHasta (lotesDeInventario db idInventario)).map
    (·.cantidadActual))

/-- Claim-side total value (quantity times unit cost) over the lots of
the position with positive remaining quantity. -/
def sumValorPositivo (db : Db) (idInventario : Nat) (fechaHasta : Option Int) : ℚ :=
  sumQ ((lotesConStockSpec db fechaHasta (lotesDeInventario db idInventario)).map
    (fun r => r.cantidadActual * r.costoUnitario))

/-- The lot cache agrees with what the ledger would compute (every entry
the engine writes has this shape; an arbitrary modelled cache needs the
assumption). -/
def LoteCacheCoherente (s : EngineState) : Prop :=
  ∀ i r, s.cache.getLoteStock i none = some r →
    stockLoteResult s.db i none = some r

/-- A position with one virgin lot of 10 units at cost 5 and one
unallocated (lot-zero) exit of 5 units: the adjusted stock is 5, the
positive-lot value is 50, and the returned average cost is 50 / 5 = 10,
not 50 / 10. -/
def cx3 : EngineState :=
  { db := { inventarios := [1]
            lotes := [⟨1, 1, 10, 5, 0⟩]
            movimientos := [⟨1, .SALIDA, 0, none, .PROCESADO, none⟩]
            movimientoDetalles := [⟨1, 1, 1, none, 5⟩]
            detallesSalida := [⟨1, 0, 5⟩]
            nextLoteId := 2 }
    cache := StockCache.empty
    now := 0 }

/-- Two virgin lots of inventory 1 with the same ingress date, sitting in
the table in the order [id 2, id 1] (a tie order the fechaIngreso-only
ORDER BY leaves to the database): the FIFO list keeps [2, 1]. -/
def cx2 : EngineState :=
  { db := { inventarios := [1]
            lotes := [⟨2, 1, 5, 3, 0⟩, ⟨1, 1, 5, 4, 0⟩]
            movimientos := []
            movimientoDetalles := []
            detallesSalida := []
            nextLoteId := 3 }
    cache := StockCache.empty
    now := 0 }

/-- A position whose cache already holds a no-cutoff entry while the
ledger has a stocked lot: the cached read hides the lots. -/
def cx4 : EngineState :=
  { db := { inventarios := [1]
            lotes := [⟨1, 1, 6, 2, 0⟩]
            movimientos := []
            movimientoDetalles := []
            detallesSalida := []
            nextLoteId := 2 }
    cache := ⟨[], [((1, none), ⟨9, 4, 36⟩)]⟩
    now := 0 }

/-- A position with two virgin lots (10 units at cost 5 dated day 1, 10
units at cost 8 dated day 10): a sale of 15 under the weighted-average
method reports cost 130 / 20 = 13/2, while the recorded physical
consumption drains lot 1 fully and 5 units of lot 2 by FIFO. -/
def cx8 : EngineState :=
  { db := { inventarios := [1]
            lotes := [⟨1, 1, 10, 5, 1⟩, ⟨2, 1, 10, 8, 10⟩]
            movimientos := []
            movimientoDetalles := []
            detallesSalida := []
            nextLoteId := 3 }
    cache := StockCache.empty
    now := 0 }

/-- The entry classification of an emitted Kardex row, from the fields it
carries (the same test esMovimientoEntrada applies to the ledger row the
Kardex row was built from). -/
def esEntradaRow (m : KardexMovement) : Bool :=
  esMovimientoEntrada m.tipoMovimiento m.tipoOperacion

/-- The arithmetic relation the replay applies to one row: the
balance-after fields of the row are obtained from a given balance-before
by the entry rule (additive) or the exit rule (subtractive, floored at
zero), with the average unit cost recomputed from the new balance. -/
def stepComputes (saldoAnterior : Saldo) (m : KardexMovement) : Prop :=
  if esEntradaRow m then
    m.cantidadSaldo = saldoAnterior.cantidad + m.cantidad ∧
    m.valorTotalSaldo = saldoAnterior.valorTotal + m.costoTotal ∧
    m.costoUnitarioSaldo =
      (if 0 < m.cantidadSaldo then m.valorTotalSaldo / m.cantidadSaldo else 0)
  else
    m.cantidadSaldo = max 0 (saldoAnterior.cantidad - m.cantidad) ∧
    m.valorTotalSaldo = max 0 (saldoAnterior.valorTotal - m.costoTotal) ∧
    m.costoUnitarioSaldo =
      (if 0 < m.cantidadSaldo then m.valorTotalSaldo / m.cantidadSaldo else 0)

/-- A row list is balance-continuous from a starting balance when every
row is computed from the balance-after of its predecessor (the first from
the starting balance). -/
def balanceContinuous (saldo : Saldo) : List KardexMovement → Prop
  | [] => True
  | m :: rest => stepComputes saldo m ∧ balanceContinuous (saldoAfter m) rest

/-- Two concrete entry ledger rows (4 units of lot 1, then 2 of lot 2) of
inventory 1, used to exercise the Kardex replay on the cx2 ledger. -/
def cx6rows : List RawMovRow :=
  [{ idMovimientoDetalle := 1, cantidad := 4, idLote := some 1,
     idInventario := 1, idMovimiento := 1, tipoMovimiento := .ENTRADA,
     fecha := 0, numeroDocumento := none, tipoOperacion := none },
   { idMovimientoDetalle := 2, cantidad := 2, idLote := some 2,
     idInventario := 1, idMovimiento := 2, tipoMovimiento := .ENTRADA,
     fecha := 0, numeroDocumento := none, tipoOperacion := none }]

/-- A concrete working set for the FIFO exit fan-out: lot 1 (10 units at
cost 5, day 1) and lot 2 (10 units at cost 8, day 10). -/
def ws7 : WorkingSet := [(1, ⟨10, 5, 1⟩), (2, ⟨10, 8, 10⟩)]

/-- A concrete exit ledger row of 15 units for the FIFO fan-out. -/
def mov7 : RawMovRow :=
  { idMovimientoDetalle := 3, cantidad := 15, idLote := none,
    idInventario := 1, idMovimiento := 3, tipoMovimiento := .SALIDA,
    fecha := 15, numeroDocumento := none, tipoOperacion := none }

/-! ### Generic lemmas about the list machinery -/

theorem beq_tipoMovimiento (a b : TipoMovimiento) : (a == b) = decide (a = b) := rfl

theorem beq_estadoMovimiento (a b : EstadoMovimiento) : (a == b) = decide (a = b) := rfl

theorem beq_metodoValoracion (a b : MetodoValoracion) : (a == b) = decide (a = b) := rfl

theorem sumQ_nil : sumQ [] = 0 := rfl

theorem sumQ_cons (x : ℚ) (l : List ℚ) : sumQ (x :: l) = x + sumQ l := rfl

theorem sumQ_nonneg (l : List ℚ) (h : ∀ x ∈ l, 0 ≤ x) : 0 ≤ sumQ l := by
  induction l with
  | nil => simp [sumQ_nil]
  | cons x xs ih =>
    rw [sumQ_cons]
    have hx := h x (by simp)
    have hxs := ih (fun y hy => h y (by simp [hy]))
    linarith

theorem mem_insertStable (lt : α → α → Bool) (x a : α) (l : List α) :
    a ∈ insertStable lt x l ↔ a = x ∨ a ∈ l := by
  induction l with
  | nil => simp [insertStable]
  | cons y ys ih =>
    by_cases h : lt y x = true
    · simp only [insertStable, if_pos h, List.mem_cons, ih]
      tauto
    · simp only [insertStable, if_neg h, List.mem_cons]
      try tauto

theorem mem_sortStable (lt : α → α → Bool) (a : α) (l : List α) :
    a ∈ sortStable lt l ↔ a ∈ l := by
  induction l with
  | nil => simp [sortStable]
  | cons x xs ih => simp [sortStable, mem_insertStable, ih]

theorem insertStable_pairwise (lt : α → α → Bool)
    (hasym : ∀ a b, lt a b = true → lt b a = false)
    (htrans : ∀ a b c, lt b a = false → lt c b = false → lt c a = false)
    (x : α) (l : List α) (h : l.Pairwise (fun a b => lt b a = false)) :
    (insertStable lt x l).Pairwise (fun a b => lt b a = false) := by
  induction l with
  | nil => simp [insertStable]
  | cons y ys ih =>
    rcases List.pairwise_cons.mp h with ⟨hy, hys⟩
    by_cases hlt : lt y x = true
    · rw [insertStable, if_pos hlt]
      refine List.pairwise_cons.mpr ⟨?_, ih hys⟩
      intro b hb
      rcases (mem_insertStable lt x b ys).mp hb with hbx | hbys
      · subst hbx; exact hasym y b hlt
      · exact hy b hbys
    · rw [insertStable, if_neg hlt]
      have hyx : lt y x = false := by simpa using hlt
      refine List.pairwise_cons.mpr ⟨?_, h⟩
      intro b hb
      rcases List.mem_cons.mp hb with hby | hbys
      · subst hby; exact hyx
      · exact htrans x y b hyx (hy b hbys)

theorem sortStable_pairwise (lt : α → α → Bool)
    (hasym : ∀ a b, lt a b = true → lt b a = false)
    (htrans : ∀ a b c, lt b a = false → lt c b = false → lt c a = false)
    (l : List α) :
    (sortStable lt l).Pairwise (fun a b => lt b a = false) := by
  induction l with
  | nil => simp [sortStable]
  | cons x xs ih => exact insertStable_pairwise lt hasym htrans x _ ih

/-! ### The engine mutates only the cache, never the ledger -/

theorem calcularStockLote_db (s : EngineState) (idLote : Nat)
    (fechaHasta : Option Int) :
    ((calcularStockLote s idLote fechaHasta).2).db = s.db ∧
    ((calcularStockLote s idLote fechaHasta).2).now = s.now := by
  unfold calcularStockLote
  split
  · exact ⟨rfl, rfl⟩
  · split <;> exact ⟨rfl, rfl⟩

theorem stockLotesFold_db (fechaHasta : Option Int) (lotes : List Lote) :
    ∀ s : EngineState,
      ((stockLotesFold fechaHasta s lotes).2.2.2).db = s.db ∧
      ((stockLotesFold fechaHasta s lotes).2.2.2).now = s.now := by
  induction lotes with
  | nil => intro s; exact ⟨rfl, rfl⟩
  | cons l ls ih =>
    intro s
    have h1 := calcularStockLote_db s l.id fechaHasta
    rcases hr : (calcularStockLote s l.id fechaHasta) with ⟨r, s1⟩
    rw [hr] at h1
    simp only [stockLotesFold, hr]
    rcases r with _ | stockLote
    · simp only
      have h2 := ih s1
      exact ⟨h2.1.trans h1.1, h2.2.trans h1.2⟩
    · simp only
      by_cases hpos : 0 < stockLote.cantidadActual
      · rcases hfold : stockLotesFold fechaHasta s1 ls with ⟨rest, st, vt, s2⟩
        have h2 := ih s1
        rw [hfold] at h2
        simp only [if_pos hpos, hfold]
        exact ⟨h2.1.trans h1.1, h2.2.trans h1.2⟩
      · have h2 := ih s1
        simp only [if_neg hpos]
        exact ⟨h2.1.trans h1.1, h2.2.trans h1.2⟩

theorem calcularStockInventario_db (s : EngineState) (idInventario : Nat)
    (fechaHasta : Option Int) :
    ((calcularStockInventario s idInventario fechaHasta).2).db = s.db ∧
    ((calcularStockInventario s idInventario fechaHasta).2).now = s.now := by
  have h := stockLotesFold_db fechaHasta (lotesDeInventario s.db idInventario) s
  rcases hfold : stockLotesFold fechaHasta s (lotesDeInventario s.db idInventario)
    with ⟨lst, st, vt, s1⟩
  rw [hfold] at h
  rcases hc : s.cache.getInventarioStock idInventario fechaHasta with _ | cached <;>
    rcases fechaHasta with _ | f <;>
    simp only [calcularStockInventario, hc, hfold] <;>
    split <;> first
      | exact ⟨rfl, rfl⟩
      | exact ⟨h.1, h.2⟩

theorem obtenerLotesDisponiblesFIFO_db (s : EngineState) (idInventario : Nat)
    (fechaHasta : Option Int) :
    ((obtenerLotesDisponiblesFIFO s idInventario fechaHasta).2).db = s.db ∧
    ((obtenerLotesDisponiblesFIFO s idInventario fechaHasta).2).now = s.now := by
  have h := calcularStockInventario_db s idInventario fechaHasta
  rcases hr : calcularStockInventario s idInventario fechaHasta with ⟨r, s1⟩
  rw [hr] at h
  simp only [obtenerLotesDisponiblesFIFO, hr]
  rcases r with _ | stockInventario <;> exact ⟨h.1, h.2⟩

theorem calcularConsumoFIFO_db (s : EngineState) (idInventario : Nat)
    (cantidad : ℚ) (fechaHasta : Option Int) :
    ((calcularConsumoFIFO s idInventario cantidad fechaHasta).2).db = s.db ∧
    ((calcularConsumoFIFO s idInventario cantidad fechaHasta).2).now = s.now := by
  have h := obtenerLotesDisponiblesFIFO_db s idInventario fechaHasta
  rcases hr : obtenerLotesDisponiblesFIFO s idInventario fechaHasta with ⟨l, s1⟩
  rw [hr] at h
  simp only [calcularConsumoFIFO, hr]
  exact ⟨h.1, h.2⟩

/-! ### C1: the greedy consumption fails exactly on insufficient stock -/

theorem consumirLotes_restante (lotes : List LoteDisponible) :
    ∀ restante : ℚ, (∀ l ∈ lotes, 0 ≤ l.cantidadDisponible) →
      (0 < (consumirLotes lotes restante).2 ↔
        sumQ (lotes.map (·.cantidadDisponible)) < restante) := by
  induction lotes with
  | nil => intro r _; simp [consumirLotes, sumQ_nil]
  | cons l ls ih =>
    intro r hnn
    have hl : 0 ≤ l.cantidadDisponible := hnn l (by simp)
    have hls : ∀ x ∈ ls, 0 ≤ x.cantidadDisponible :=
      fun x hx => hnn x (by simp [hx])
    have hsum : 0 ≤ sumQ (ls.map (·.cantidadDisponible)) := by
      apply sumQ_nonneg
      intro x hx
      rcases List.mem_map.mp hx with ⟨y, hy, hxy⟩
      exact hxy ▸ hls y hy
    by_cases hr : r ≤ 0
    · rw [consumirLotes, if_pos hr]
      simp only [List.map_cons, sumQ_cons]
      constructor
      · intro h; linarith
      · intro h; linarith
    · rw [consumirLotes, if_neg hr]
      push_neg at hr
      rcases hfold : consumirLotes ls (r - min r l.cantidadDisponible) with ⟨cs, rest⟩
      have ihr := ih (r - min r l.cantidadDisponible) hls
      rw [hfold] at ihr
      simp only [hfold, List.map_cons, sumQ_cons]
      rw [ihr]
      rcases le_total l.cantidadDisponible r with hc | hc
      · rw [min_eq_right hc]
        constructor <;> (intro h; linarith)
      · rw [min_eq_left hc]
        constructor <;> (intro h; linarith)

theorem lotesDisponibles_nonneg (s : EngineState) (idInventario : Nat)
    (fechaHasta : Option Int) :
    ∀ l ∈ (obtenerLotesDisponiblesFIFO s idInventario fechaHasta).1,
      0 ≤ l.cantidadDisponible := by
  intro l hl
  unfold obtenerLotesDisponiblesFIFO at hl
  rcases hr : calcularStockInventario s idInventario fechaHasta with ⟨r, s1⟩
  rw [hr] at hl
  rcases r with _ | stockInventario
  · simp at hl
  · simp only at hl
    rw [mem_sortStable] at hl
    rcases List.mem_map.mp hl with ⟨x, hx, hxl⟩
    rcases List.mem_filter.mp hx with ⟨_, hpos⟩
    have : 0 < x.cantidadActual := by simpa using hpos
    rw [← hxl]
    exact le_of_lt this

/-- C1: calcularConsumoFIFO raises the InsufficientStock error exactly
when the total available quantity over the FIFO-available lots of the
position is below the requested quantity, and whatever it does it never
changes the ledger (lots, movements, allocations): only the cache moves. -/
theorem calcularConsumoFIFO_insuficiente_iff (s : EngineState)
    (idInventario : Nat) (cantidad : ℚ) (fechaHasta : Option Int) :
    (esError (calcularConsumoFIFO s idInventario cantidad fechaHasta).1 = true ↔
      sumQ (((obtenerLotesDisponiblesFIFO s idInventario fechaHasta).1).map
        (·.cantidadDisponible)) < cantidad) ∧
    ((calcularConsumoFIFO s idInventario cantidad fechaHasta).2).db = s.db := by
  refine ⟨?_, (calcularConsumoFIFO_db s idInventario cantidad fechaHasta).1⟩
  unfold calcularConsumoFIFO
  have hnn := lotesDisponibles_nonneg s idInventario fechaHasta
  rcases hl : obtenerLotesDisponiblesFIFO s idInventario fechaHasta with ⟨lotes, s1⟩
  rw [hl] at hnn
  simp only
  have hiff := consumirLotes_restante lotes cantidad hnn
  rcases hc : consumirLotes lotes cantidad with ⟨consumo, restante⟩
  rw [hc] at hiff
  simp only at hiff ⊢
  by_cases hrest : 0 < restante
  · rw [if_pos hrest]
    simpa [esError] using hiff.mp hrest
  · rw [if_neg hrest]
    simp only [esError]
    constructor
    · intro h; exact absurd h (by simp)
    · intro h; exact absurd (hiff.mpr h) hrest

/-! ### C10: computed lot stock is never negative -/

/-- C10: for every ledger content (any mix of PROCESADO ENTRADA, SALIDA
and AJUSTE quantities on the lot, negative raw sums included) the
quantity calcularStockLote returns is never negative. A cached result is
served verbatim, so the cache entries of the lot are assumed nonnegative
(every entry the engine itself writes is, being a max with 0). -/
theorem calcularStockLote_nonneg (s : EngineState) (idLote : Nat)
    (fechaHasta : Option Int) (r : LoteStockResult)
    (hcache : ∀ res, s.cache.getLoteStock idLote none = some res →
      0 ≤ res.cantidadActual)
    (h : (calcularStockLote s idLote fechaHasta).1 = some r) :
    0 ≤ r.cantidadActual := by
  unfold calcularStockLote at h
  rcases hg : s.cache.getLoteStock idLote fechaHasta with _ | cached <;>
    rcases hf : fechaHasta with _ | f <;>
    rw [hf] at h hg <;> rw [hg] at h <;>
    simp only [] at h
  case none.none | none.some =>
    rcases hsl : stockLoteResult s.db idLote fechaHasta with _ | result <;>
      rw [hf] at hsl <;> rw [hsl] at h
    · exact absurd h (by simp)
    · have : result = r := by simpa using h
      subst this
      unfold stockLoteResult at hsl
      rcases hlote : s.db.findLote idLote with _ | lote <;> rw [hlote] at hsl
      · exact absurd hsl (by simp)
      · have := (Option.some.injEq _ _).mp hsl
        rw [← this]
        exact le_max_left 0 _
  case some.none =>
    have : cached = r := by simpa using h
    subst this
    exact hcache _ hg
  case some.some =>
    rcases hsl : stockLoteResult s.db idLote (some f) with _ | result <;>
      rw [hsl] at h
    · exact absurd h (by simp)
    · have : result = r := by simpa using h
      subst this
      unfold stockLoteResult at hsl
      rcases hlote : s.db.findLote idLote with _ | lote <;> rw [hlote] at hsl
      · exact absurd hsl (by simp)
      · have := (Option.some.injEq _ _).mp hsl
        rw [← this]
        exact le_max_left 0 _

/-- C10 witness: the nonnegativity theorem applied to the concrete
negative-adjustment ledger. -/
theorem calcularStockLote_nonneg_witness :
    ∃ r, (calcularStockLote cxNeg 1 none).1 = some r ∧ 0 ≤ r.cantidadActual := by
  have h : (calcularStockLote cxNeg 1 none).1 = some
      { idLote := 1, cantidadActual := 7, cantidadInicial := 7,
        costoUnitario := 4, fechaIngreso := 0 } := by
    simp [calcularStockLote, cxNeg, StockCache.empty,
      StockCache.getLoteStock, stockLoteResult, Db.findLote, cantidadActualLote,
      entradasLote, salidasLote, ajustesLote, sumQ, Db.findMovimiento,
      Db.findDetalle, matchesFecha, List.find?, List.filter, List.map,
      List.foldr, beq_tipoMovimiento, beq_estadoMovimiento, invInitFecha]
    norm_num
  exact ⟨_, h, calcularStockLote_nonneg cxNeg 1 none _
    (by intro res hres; simp [cxNeg, StockCache.empty, StockCache.getLoteStock] at hres) h⟩

/-! ### C5: the virgin-lot fallback of calcularStockLote -/

/-- C5 (amended): with a cutoff date, calcularStockLote falls back to the
stored initial quantity exactly when the summed ENTRADA, SALIDA and
AJUSTE quantities of the lot are each non-positive (in particular, but
not only, when no movement references the lot); in that case it returns
the floored stored initial quantity when the INV-INIT movement date of
the lot (or, absent one, its ingress date) is on or before the cutoff,
and zero otherwise; when some sum is positive it returns the floored
ledger replay instead. -/
theorem calcularStockLote_fallback (s : EngineState) (idLote : Nat)
    (f : Int) (lote : Lote) (hfind : s.db.findLote idLote = some lote) :
    ((calcularStockLote s idLote (some f)).1.map (·.cantidadActual)) =
      some (if 0 < entradasLote s.db idLote (some f) ∨
               0 < salidasLote s.db idLote (some f) ∨
               0 < ajustesLote s.db idLote (some f)
        then max 0 (entradasLote s.db idLote (some f) -
               salidasLote s.db idLote (some f) +
               ajustesLote s.db idLote (some f))
        else if (invInitFecha s.db idLote).getD lote.fechaIngreso ≤ f
             then max 0 lote.cantidadInicial else 0) := by
  have hfind2 : s.db.lotes.find? (fun l => l.id == idLote) = some lote := hfind
  have hid : lote.id = idLote := by simpa using List.find?_some hfind2
  subst hid
  have key : ∀ (D : Int) (ci : ℚ),
      ((0 : ℚ) ⊔ (if D ≤ f then ci else 0)) =
        (if D ≤ f then (0 : ℚ) ⊔ ci else 0) := by
    intro D ci; split_ifs <;> simp
  unfold calcularStockLote
  rcases hg : s.cache.getLoteStock lote.id (some f) with _ | cached <;>
    simp only [hg, stockLoteResult, hfind, cantidadActualLote, Option.map_some'] <;>
    rcases hi : invInitFecha s.db lote.id with _ | fi <;>
    simp only [hi, Option.getD_none, Option.getD_some] <;>
    by_cases h1 : (0 < entradasLote s.db lote.id (some f) ∨
      0 < salidasLote s.db lote.id (some f) ∨
      0 < ajustesLote s.db lote.id (some f)) <;>
    first
      | rw [if_pos h1, if_pos h1]
      | (rw [if_neg h1, if_neg h1]; exact congrArg some (key _ _))

/-- C5 witness: the fallback theorem applied to the negative-adjustment
ledger, where the sums are 0, 0 and -5 and the INV-INIT probe is empty,
so the lot (ingress day 0) evaluates at day 3 to its floored stored
initial quantity 7. -/
theorem calcularStockLote_fallback_witness :
    ((calcularStockLote cxNeg 1 (some 3)).1.map (·.cantidadActual)) = some 7 := by
  have h := calcularStockLote_fallback cxNeg 1 3 ⟨1, 1, 7, 4, 0⟩
    (by simp [cxNeg, Db.findLote, List.find?])
  rw [h]
  simp [cxNeg, entradasLote, salidasLote, ajustesLote, invInitFecha, sumQ,
    Db.findMovimiento, Db.findDetalle, matchesFecha, List.find?, List.filter,
    beq_tipoMovimiento, beq_estadoMovimiento]
  try norm_num

/-- C5 counterexample to the claim as stated: in cxNeg a PROCESADO AJUSTE
movement references lot 1 (quantity -5), yet calcularStockLote still
returns the stored initial quantity 7, not the floored ledger replay 0:
the fallback is not restricted to lots no movement references. -/
theorem calcularStockLote_fallback_counterexample :
    (cxNeg.db.movimientoDetalles.any (fun md => md.idLote == some 1 &&
      match cxNeg.db.findMovimiento md.idMovimiento with
      | some m => m.estado == .PROCESADO
      | none => false)) = true ∧
    ((calcularStockLote cxNeg 1 none).1.map (·.cantidadActual)) = some 7 ∧
    max 0 (entradasLote cxNeg.db 1 none - salidasLote cxNeg.db 1 none +
      ajustesLote cxNeg.db 1 none) = 0 ∧
    (7 : ℚ) ≠ 0 := by
  refine ⟨by simp [cxNeg, Db.findMovimiento, List.find?, beq_estadoMovimiento], ?_, ?_, by norm_num⟩
  · simp [calcularStockLote, cxNeg, StockCache.empty, StockCache.getLoteStock,
      stockLoteResult, Db.findLote, cantidadActualLote, entradasLote,
      salidasLote, ajustesLote, sumQ, Db.findMovimiento, Db.findDetalle,
      matchesFecha, List.find?, List.filter, beq_tipoMovimiento,
      beq_estadoMovimiento, invInitFecha]
    norm_num
  · simp [cxNeg, entradasLote, salidasLote, ajustesLote, sumQ,
      Db.findMovimiento, Db.findDetalle, matchesFecha, List.find?, List.filter,
      beq_tipoMovimiento, beq_estadoMovimiento]
    try norm_num

/-! ### C3: the aggregation formula of calcularStockInventario -/

theorem getLoteStock_set (c : StockCache) (i : Nat) (fh : Option Int)
    (r : LoteStockResult) (j : Nat) (g : Option Int) :
    (c.setLoteStock i fh r).getLoteStock j g =
      if (i, fh) = (j, g) then some r else c.getLoteStock j g := by
  unfold StockCache.setLoteStock StockCache.getLoteStock
  rw [List.find?_cons]
  by_cases h : (i, fh) = (j, g)
  · have hb : ((((i, fh), r) : (Nat × Option Int) × LoteStockResult).1 ==
        (j, g)) = true := by simp [h]
    rw [hb, if_pos h]
    try rfl
  · have hb : ((((i, fh), r) : (Nat × Option Int) × LoteStockResult).1 ==
        (j, g)) = false := by simpa using h
    rw [hb, if_neg h]
    try rfl

theorem calcularStockLote_coherent (s : EngineState) (idLote : Nat)
    (fechaHasta : Option Int) (hcoh : LoteCacheCoherente s) :
    (calcularStockLote s idLote fechaHasta).1 =
      stockLoteResult s.db idLote fechaHasta ∧
    ((calcularStockLote s idLote fechaHasta).2).db = s.db ∧
    LoteCacheCoherente (calcularStockLote s idLote fechaHasta).2 := by
  rcases fechaHasta with _ | f
  · unfold calcularStockLote
    rcases hg : s.cache.getLoteStock idLote none with _ | cached
    · simp only [hg]
      rcases hsl : stockLoteResult s.db idLote none with _ | result <;>
        simp only [hsl]
      · exact ⟨by trivial, by trivial, hcoh⟩
      · refine ⟨by trivial, by trivial, ?_⟩
        intro j r' hj
        replace hj : (s.cache.setLoteStock idLote none result).getLoteStock
          j none = some r' := hj
        rw [getLoteStock_set] at hj
        by_cases hk : ((idLote, (none : Option Int)) = (j, (none : Option Int)))
        · rw [if_pos hk] at hj
          have hjk : idLote = j := by simpa using hk
          cases hjk
          simp only [Option.some.injEq] at hj
          subst hj
          exact hsl
        · rw [if_neg hk] at hj
          exact hcoh j r' hj
    · simp only [hg]
      exact ⟨(hcoh idLote cached hg).symm, by trivial, hcoh⟩
  · unfold calcularStockLote
    rcases hg : s.cache.getLoteStock idLote (some f) with _ | cached <;>
      simp only [hg] <;>
      rcases hsl : stockLoteResult s.db idLote (some f) with _ | result <;>
      simp only [hsl]
    case none.none | some.none =>
      exact ⟨by trivial, by trivial, hcoh⟩
    all_goals {
      refine ⟨by trivial, by trivial, ?_⟩
      intro j r' hj
      replace hj : (s.cache.setLoteStock idLote (some f) result).getLoteStock
        j none = some r' := hj
      rw [getLoteStock_set] at hj
      have hk : ¬ ((idLote, (some f : Option Int)) = (j, (none : Option Int))) := by
        simp
      rw [if_neg hk] at hj
      exact hcoh j r' hj }

theorem stockLotesFold_spec (fechaHasta : Option Int) (lotes : List Lote) :
    ∀ s : EngineState, LoteCacheCoherente s →
      (stockLotesFold fechaHasta s lotes).1 =
        lotesConStockSpec s.db fechaHasta lotes ∧
      (stockLotesFold fechaHasta s lotes).2.1 =
        sumQ ((lotesConStockSpec s.db fechaHasta lotes).map (·.cantidadActual)) ∧
      (stockLotesFold fechaHasta s lotes).2.2.1 =
        sumQ ((lotesConStockSpec s.db fechaHasta lotes).map
          (fun r => r.cantidadActual * r.costoUnitario)) ∧
      ((stockLotesFold fechaHasta s lotes).2.2.2).db = s.db ∧
      LoteCacheCoherente (stockLotesFold fechaHasta s lotes).2.2.2 := by
  induction lotes with
  | nil =>
    intro s hcoh
    exact ⟨rfl, rfl, rfl, rfl, hcoh⟩
  | cons l ls ih =>
    intro s hcoh
    have hl := calcularStockLote_coherent s l.id fechaHasta hcoh
    rcases hr : calcularStockLote s l.id fechaHasta with ⟨r, s1⟩
    rw [hr] at hl
    rcases hl with ⟨hval, hdb1, hcoh1⟩
    simp only at hval hdb1 hcoh1
    have ihs := ih s1 hcoh1
    simp only [stockLotesFold, hr]
    rcases hsl : stockLoteResult s.db l.id fechaHasta with _ | stockLote <;>
      rw [hsl] at hval <;> subst hval
    · simp only [lotesConStockSpec, List.filterMap_cons, hsl] at *
      rw [hdb1] at ihs
      exact ⟨ihs.1, ihs.2.1, ihs.2.2.1, ihs.2.2.2.1, ihs.2.2.2.2⟩
    · by_cases hpos : 0 < stockLote.cantidadActual
      · rcases hfold : stockLotesFold fechaHasta s1 ls with ⟨rest, st, vt, s2⟩
        rw [hfold] at ihs
        simp only at ihs
        rw [hdb1] at ihs
        simp only [if_pos hpos, hfold, lotesConStockSpec, List.filterMap_cons,
          hsl, if_pos hpos, List.map_cons, sumQ_cons]
        refine ⟨?_, ?_, ?_, ihs.2.2.2.1, ihs.2.2.2.2⟩
        · rw [ihs.1]; rfl
        · rw [ihs.2.1]; rfl
        · rw [ihs.2.2.1]; rfl
      · rw [hdb1] at ihs
        simp only [if_neg hpos, lotesConStockSpec, List.filterMap_cons, hsl,
          if_neg hpos]
        exact ⟨ihs.1, ihs.2.1, ihs.2.2.1, ihs.2.2.2.1, ihs.2.2.2.2⟩

/-- C3 (amended): without a usable cache entry, calcularStockInventario
returns as quantity the sum of the positive per-lot quantities minus the
unallocated (lot-zero) exits, floored at zero, and as weighted-average
unit cost the positive-lot total value divided by that ADJUSTED quantity
(zero when the adjusted quantity is zero) -- the divisor is the adjusted
total, not the positive-lot total the claim states. -/
theorem calcularStockInventario_formula (s : EngineState) (idInventario : Nat)
    (fechaHasta : Option Int)
    (hinv : s.db.inventarios.contains idInventario = true)
    (hmiss : fechaHasta = none →
      s.cache.getInventarioStock idInventario none = none)
    (hcoh : LoteCacheCoherente s) :
    ((calcularStockInventario s idInventario fechaHasta).1.map
      (fun r => (r.stockActual, r.costoPromedioActual))) =
      some (max 0 (sumStockPositivo s.db idInventario fechaHasta -
              salidasFicticias s.db idInventario fechaHasta),
            if 0 < max 0 (sumStockPositivo s.db idInventario fechaHasta -
                     salidasFicticias s.db idInventario fechaHasta)
            then sumValorPositivo s.db idInventario fechaHasta /
                   max 0 (sumStockPositivo s.db idInventario fechaHasta -
                     salidasFicticias s.db idInventario fechaHasta)
            else 0) := by
  have hfold := stockLotesFold_spec fechaHasta (lotesDeInventario s.db idInventario) s hcoh
  rcases hf : stockLotesFold fechaHasta s (lotesDeInventario s.db idInventario)
    with ⟨lst, st, vt, s1⟩
  rw [hf] at hfold
  simp only at hfold
  unfold calcularStockInventario
  rcases hfh : fechaHasta with _ | f
  · rw [hfh] at hmiss hfold hf
    rw [hmiss rfl]
    simp only [hinv, if_true, hf]
    rw [hfold.2.1, hfold.2.2.1]
    rfl
  · rw [hfh] at hfold hf
    rcases hg : s.cache.getInventarioStock idInventario (some f) with _ | cached <;>
      simp only [hg, hinv, if_true, hf] <;>
      rw [hfold.2.1, hfold.2.2.1] <;> rfl

/-- C3 witness: the formula theorem applied to the lot-zero-exit ledger,
where the positive-lot totals are 10 and 50, the unallocated exits are 5,
and the result is quantity 5 at average cost 10. -/
theorem calcularStockInventario_formula_witness :
    ((calcularStockInventario cx3 1 none).1.map
      (fun r => (r.stockActual, r.costoPromedioActual))) = some (5, 10) := by
  have h := calcularStockInventario_formula cx3 1 none (by simp [cx3])
    (fun _ => by simp [cx3, StockCache.empty, StockCache.getInventarioStock])
    (fun i r hir => by simp [cx3, StockCache.empty, StockCache.getLoteStock] at hir)
  rw [h]
  have h1 : sumStockPositivo cx3.db 1 none = 10 := by
    simp [sumStockPositivo, lotesConStockSpec, lotesDeInventario, cx3,
      sortStable, insertStable, stockLoteResult, Db.findLote,
      cantidadActualLote, entradasLote, salidasLote, ajustesLote, sumQ,
      Db.findMovimiento, Db.findDetalle, matchesFecha, List.find?, List.filter,
      beq_tipoMovimiento, beq_estadoMovimiento, invInitFecha]
    try norm_num
  have h2 : sumValorPositivo cx3.db 1 none = 50 := by
    simp [sumValorPositivo, lotesConStockSpec, lotesDeInventario, cx3,
      sortStable, insertStable, stockLoteResult, Db.findLote,
      cantidadActualLote, entradasLote, salidasLote, ajustesLote, sumQ,
      Db.findMovimiento, Db.findDetalle, matchesFecha, List.find?, List.filter,
      beq_tipoMovimiento, beq_estadoMovimiento, invInitFecha]
    try norm_num
  have h3 : salidasFicticias cx3.db 1 none = 5 := by
    simp [salidasFicticias, cx3, sumQ, Db.findMovimiento, Db.findDetalle,
      matchesFecha, List.find?, List.filter, beq_tipoMovimiento,
      beq_estadoMovimiento]
    try norm_num
  rw [h1, h2, h3]
  norm_num

/-- C3 counterexample to the claim as stated: on cx3 the claim computes
totalValue / totalQuantity = 50 / 10 = 5, but calcularStockInventario
returns average cost 10 (it divides by the adjusted quantity 5). -/
theorem calcularStockInventario_promedio_counterexample :
    ((calcularStockInventario cx3 1 none).1.map (·.costoPromedioActual)) =
      some 10 ∧
    sumStockPositivo cx3.db 1 none = 10 ∧
    sumValorPositivo cx3.db 1 none = 50 ∧
    ¬ ((50 : ℚ) / 10 = 10) := by
  have h := calcularStockInventario_formula_witness
  refine ⟨?_, ?_, ?_, by norm_num⟩
  · rcases hres : (calcularStockInventario cx3 1 none).1 with _ | r
    · rw [hres] at h; exact absurd h (by simp)
    · rw [hres] at h
      simp only [Option.map_some'] at h
      have := (Option.some.injEq _ _).mp h
      simp only [Option.map_some', hres]
      exact congrArg some (congrArg Prod.snd this)
  · simp [sumStockPositivo, lotesConStockSpec, lotesDeInventario, cx3,
      sortStable, insertStable, stockLoteResult, Db.findLote,
      cantidadActualLote, entradasLote, salidasLote, ajustesLote, sumQ,
      Db.findMovimiento, Db.findDetalle, matchesFecha, List.find?, List.filter,
      beq_tipoMovimiento, beq_estadoMovimiento, invInitFecha]
    try norm_num
  · simp [sumValorPositivo, lotesConStockSpec, lotesDeInventario, cx3,
      sortStable, insertStable, stockLoteResult, Db.findLote,
      cantidadActualLote, entradasLote, salidasLote, ajustesLote, sumQ,
      Db.findMovimiento, Db.findDetalle, matchesFecha, List.find?, List.filter,
      beq_tipoMovimiento, beq_estadoMovimiento, invInitFecha]
    try norm_num

/-! ### C2: the ordering of the FIFO lot lists -/

theorem ltFechaDisponible_asym (a b : LoteDisponible)
    (h : ltFechaDisponible a b = true) : ltFechaDisponible b a = false := by
  simp only [ltFechaDisponible, decide_eq_true_eq] at h
  simp only [ltFechaDisponible, decide_eq_false_iff_not]
  omega

theorem ltFechaDisponible_trans (a b c : LoteDisponible)
    (h1 : ltFechaDisponible b a = false) (h2 : ltFechaDisponible c b = false) :
    ltFechaDisponible c a = false := by
  simp only [ltFechaDisponible, decide_eq_false_iff_not] at h1 h2 ⊢
  omega

theorem ltFechaId_asym (a b : LoteDisponible)
    (h : ltFechaId a b = true) : ltFechaId b a = false := by
  simp only [ltFechaId, decide_eq_true_eq] at h
  simp only [ltFechaId, decide_eq_false_iff_not]
  omega

theorem ltFechaId_trans (a b c : LoteDisponible)
    (h1 : ltFechaId b a = false) (h2 : ltFechaId c b = false) :
    ltFechaId c a = false := by
  simp only [ltFechaId, decide_eq_false_iff_not] at h1 h2 ⊢
  omega

/-- C2 (amended): obtenerLotesDisponiblesFIFO orders its result ascending
by ingress date only -- ties keep the order in which the repository
returned the lots (a stable sort), which is not constrained to be
ascending lot id -- while the Kardex working-set snapshot of
calcularCostoFIFO is ordered by ingress date with ties broken by
ascending lot id. -/
theorem fifo_orden_lotes :
    (∀ (s : EngineState) (idInventario : Nat) (fechaHasta : Option Int),
      ((obtenerLotesDisponiblesFIFO s idInventario fechaHasta).1).Pairwise
        (fun a b => a.fechaIngreso ≤ b.fechaIngreso)) ∧
    (∀ ws : WorkingSet,
      (snapshotLotes ws).Pairwise
        (fun a b => a.fechaIngreso < b.fechaIngreso ∨
          (a.fechaIngreso = b.fechaIngreso ∧ a.idLote ≤ b.idLote))) := by
  constructor
  · intro s idInventario fechaHasta
    unfold obtenerLotesDisponiblesFIFO
    rcases hr : calcularStockInventario s idInventario fechaHasta with ⟨r, s1⟩
    rcases r with _ | stockInventario
    · simp
    · simp only
      refine (sortStable_pairwise ltFechaDisponible ltFechaDisponible_asym
        ltFechaDisponible_trans _).imp ?_
      intro a b hab
      simpa [ltFechaDisponible] using hab
  · intro ws
    unfold snapshotLotes
    refine (sortStable_pairwise ltFechaId ltFechaId_asym ltFechaId_trans _).imp ?_
    intro a b hab
    simp only [ltFechaId, decide_eq_false_iff_not] at hab
    omega

/-- C2 counterexample to the claim as stated: two lots with equal ingress
dates in table order [2, 1] come back from obtenerLotesDisponiblesFIFO in
that same order, and a FIFO consumption of 3 draws from lot 2, the
higher-id lot, first; the list is not tie-broken by ascending lot id. -/
theorem fifo_orden_counterexample :
    ((obtenerLotesDisponiblesFIFO cx2 1 none).1.map (·.idLote)) = [2, 1] ∧
    ((obtenerLotesDisponiblesFIFO cx2 1 none).1.map (·.fechaIngreso)) = [0, 0] ∧
    (calcularConsumoFIFO cx2 1 3 none).1 =
      .ok [{ idLote := 2, cantidad := 3, costoUnitario := 3 }] ∧
    ¬ (([2, 1] : List Nat).Pairwise (· ≤ ·)) := by
  have heval : (obtenerLotesDisponiblesFIFO cx2 1 none).1 =
      [{ idLote := 2, cantidadDisponible := 5, costoUnitario := 3, fechaIngreso := 0 },
       { idLote := 1, cantidadDisponible := 5, costoUnitario := 4, fechaIngreso := 0 }] := by
    simp [obtenerLotesDisponiblesFIFO, calcularStockInventario, cx2,
      StockCache.empty, StockCache.getInventarioStock, stockLotesFold,
      lotesDeInventario, sortStable, insertStable, ltFechaLote,
      ltFechaDisponible, calcularStockLote, StockCache.getLoteStock,
      stockLoteResult, Db.findLote, cantidadActualLote, entradasLote,
      salidasLote, ajustesLote, salidasFicticias, sumQ, Db.findMovimiento,
      Db.findDetalle, matchesFecha, invInitFecha, List.find?, List.filter,
      beq_tipoMovimiento, beq_estadoMovimiento]
    try norm_num
  refine ⟨by rw [heval]; rfl, by rw [heval]; rfl, ?_, by decide⟩
  have : (calcularConsumoFIFO cx2 1 3 none).1 =
      (if 0 < (consumirLotes (obtenerLotesDisponiblesFIFO cx2 1 none).1 3).2
       then .error "Stock insuficiente"
       else .ok (consumirLotes (obtenerLotesDisponiblesFIFO cx2 1 none).1 3).1) := by
    unfold calcularConsumoFIFO
    rcases hl : obtenerLotesDisponiblesFIFO cx2 1 none with ⟨lotes, s1⟩
    simp only
  rw [this, heval]
  norm_num [consumirLotes]

/-! ### C4: a cached inventory read hides the lots from FIFO -/

theorem getInventarioStock_set (c : StockCache) (i : Nat) (fh : Option Int)
    (r : InvCacheEntry) (j : Nat) (g : Option Int) :
    (c.setInventarioStock i fh r).getInventarioStock j g =
      if (i, fh) = (j, g) then some r else c.getInventarioStock j g := by
  unfold StockCache.setInventarioStock StockCache.getInventarioStock
  rw [List.find?_cons]
  by_cases h : (i, fh) = (j, g)
  · have hb : ((((i, fh), r) : (Nat × Option Int) × InvCacheEntry).1 ==
        (j, g)) = true := by simp [h]
    rw [hb, if_pos h]
    try rfl
  · have hb : ((((i, fh), r) : (Nat × Option Int) × InvCacheEntry).1 ==
        (j, g)) = false := by simpa using h
    rw [hb, if_neg h]
    try rfl

/-- C4: once the no-cutoff stock cache entry of a position exists, a
no-cutoff calcularStockInventario call is served from it with an EMPTY
lots list, so obtenerLotesDisponiblesFIFO sees zero available lots and
calcularConsumoFIFO fails for every positive quantity; and every
successful no-cutoff calcularStockInventario call does leave such an
entry (with its own quantity and average cost) in the cache. -/
theorem cache_inventario_lotes_vacios (s : EngineState) (idInventario : Nat)
    (entry : InvCacheEntry)
    (hinv : s.db.inventarios.contains idInventario = true)
    (hcache : s.cache.getInventarioStock idInventario none = some entry) :
    (calcularStockInventario s idInventario none).1 =
      some { idInventario := idInventario
             stockActual := entry.stockActual
             costoPromedioActual := entry.costoPromedioActual
             lotes := [] } ∧
    (obtenerLotesDisponiblesFIFO s idInventario none).1 = [] ∧
    (∀ q : ℚ, 0 < q →
      esError (calcularConsumoFIFO s idInventario q none).1 = true) ∧
    (∀ (s0 : EngineState) (r : InventarioStockResult),
      (calcularStockInventario s0 idInventario none).1 = some r →
      ∃ e2, ((calcularStockInventario s0 idInventario none).2).cache.getInventarioStock
          idInventario none = some e2 ∧
        e2.stockActual = r.stockActual ∧
        e2.costoPromedioActual = r.costoPromedioActual) := by
  have hres : calcularStockInventario s idInventario none =
      (some { idInventario := idInventario
              stockActual := entry.stockActual
              costoPromedioActual := entry.costoPromedioActual
              lotes := [] }, s) := by
    unfold calcularStockInventario
    rw [hcache]
    simp only [hinv, if_true]
  have hobt : (obtenerLotesDisponiblesFIFO s idInventario none).1 = [] := by
    unfold obtenerLotesDisponiblesFIFO
    rw [hres]
    simp [sortStable]
  refine ⟨by rw [hres], hobt, ?_, ?_⟩
  · intro q hq
    unfold calcularConsumoFIFO
    rcases hl : obtenerLotesDisponiblesFIFO s idInventario none with ⟨lotes, s1⟩
    rw [hl] at hobt
    simp only at hobt
    subst hobt
    simp only [consumirLotes]
    rw [if_pos hq]
    rfl
  · intro s0 r hr
    unfold calcularStockInventario at hr ⊢
    rcases hc0 : s0.cache.getInventarioStock idInventario none with _ | cached <;>
      simp only [hc0] at hr ⊢
    · by_cases hin : s0.db.inventarios.contains idInventario
      · simp only [hin, if_true] at hr ⊢
        generalize hf : stockLotesFold none s0 (lotesDeInventario s0.db idInventario)
          = P at hr ⊢
        rcases P with ⟨lst, st, vt, s1⟩
        simp only at hr ⊢
        rw [getInventarioStock_set]
        rw [if_pos rfl]
        refine ⟨_, rfl, ?_, ?_⟩ <;>
          simp only [← (Option.some.injEq _ _).mp hr]
      · simp only [hin, if_false] at hr
        exact absurd hr (by simp)
    · by_cases hin : s0.db.inventarios.contains idInventario
      · simp only [hin, if_true] at hr ⊢
        refine ⟨cached, hc0, ?_, ?_⟩ <;>
          simp only [← (Option.some.injEq _ _).mp hr]
      · simp only [hin, if_false] at hr
        exact absurd hr (by simp)

/-- C4 witness: on a state whose cache already holds entry (9, 4) for
inventory 1 while the ledger has a stocked lot, the cached read returns
quantity 9 and cost 4 with no lots, the FIFO list is empty, and a
consumption of 1 fails. -/
theorem cache_inventario_lotes_vacios_witness :
    (calcularStockInventario cx4 1 none).1 =
      some { idInventario := 1, stockActual := 9, costoPromedioActual := 4,
             lotes := [] } ∧
    (obtenerLotesDisponiblesFIFO cx4 1 none).1 = [] ∧
    esError (calcularConsumoFIFO cx4 1 1 none).1 = true := by
  have h := cache_inventario_lotes_vacios cx4 1 ⟨9, 4, 36⟩ (by simp [cx4])
    (by simp [cx4, StockCache.getInventarioStock, List.find?])
  exact ⟨h.1, h.2.1, h.2.2.1 1 (by norm_num)⟩

/-! ### C6: the Kardex running balance is continuous -/

theorem lastSaldo_cons (saldo : Saldo) (m : KardexMovement)
    (l : List KardexMovement) :
    lastSaldo saldo (m :: l) = lastSaldo (saldoAfter m) l := by
  cases l with
  | nil => rfl
  | cons m2 l2 =>
    have hsome : ((m2 :: l2).getLast?).isSome := by
      rw [List.getLast?_isSome]
      simp
    rcases Option.isSome_iff_exists.mp hsome with ⟨mlast, h2⟩
    simp only [lastSaldo, List.getLast?_cons_cons, h2]

theorem balanceContinuous_append (l1 : List KardexMovement) :
    ∀ (saldo : Saldo) (l2 : List KardexMovement),
      balanceContinuous saldo l1 →
      balanceContinuous (lastSaldo saldo l1) l2 →
      balanceContinuous saldo (l1 ++ l2) := by
  induction l1 with
  | nil => intro saldo l2 _ h2; exact h2
  | cons m l1 ih =>
    intro saldo l2 h1 h2
    rcases h1 with ⟨hstep, hrest⟩
    rw [lastSaldo_cons] at h2
    exact ⟨hstep, ih (saldoAfter m) l2 hrest h2⟩

theorem movimientosPorLote_continuous (mov : RawMovRow)
    (hmov : esMovimientoEntrada mov.tipoMovimiento mov.tipoOperacion = false) :
    ∀ (det : List DetalleSalidaCalculado) (saldo : Saldo),
      balanceContinuous saldo (movimientosPorLote mov saldo det) := by
  intro det
  induction det with
  | nil => intro saldo; exact trivial
  | cons d ds ih =>
    intro saldo
    refine ⟨?_, ih (saldoAfter (salidaStepFIFO mov saldo d))⟩
    unfold stepComputes
    have hclass : esEntradaRow (salidaStepFIFO mov saldo d) = false := hmov
    rw [hclass]
    simp only [if_false, Bool.false_eq_true]
    exact ⟨rfl, rfl, rfl⟩

theorem procesarMovimientosAux_continuous (db : Db)
    (metodoValoracion : MetodoValoracion) (rows : List RawMovRow) :
    ∀ (saldo : Saldo) (ws : WorkingSet),
      balanceContinuous saldo
        (procesarMovimientosAux db metodoValoracion rows saldo ws).1 := by
  induction rows with
  | nil => intro saldo ws; exact trivial
  | cons mov rest ih =>
    intro saldo ws
    by_cases hent : esMovimientoEntrada mov.tipoMovimiento mov.tipoOperacion
    · simp only [procesarMovimientosAux, if_pos hent]
      generalize hrec : procesarMovimientosAux db metodoValoracion rest
        (saldoAfter (procesarEntrada db mov saldo))
        (wsEntradaFIFO db metodoValoracion mov saldo ws) = P
      rcases P with ⟨trace, saldoF, wsF⟩
      simp only
      refine ⟨?_, ?_⟩
      · unfold stepComputes
        have hclass : esEntradaRow (procesarEntrada db mov saldo) = true := hent
        rw [hclass]
        simp only [if_true]
        exact ⟨by trivial, by trivial, by trivial⟩
      · have hc := ih (saldoAfter (procesarEntrada db mov saldo))
          (wsEntradaFIFO db metodoValoracion mov saldo ws)
        rw [hrec] at hc
        exact hc
    · have hentF : esMovimientoEntrada mov.tipoMovimiento mov.tipoOperacion
        = false := by simpa using hent
      simp only [procesarMovimientosAux, if_neg hent]
      rcases metodoValoracion with _ | _
      · simp only [procesarSalida]
        generalize hrec : procesarMovimientosAux db MetodoValoracion.promedio
          rest (saldoAfter (salidaPromedio mov saldo)) ws = P
        rcases P with ⟨trace, saldoF, wsF⟩
        simp only
        refine ⟨?_, ?_⟩
        · unfold stepComputes
          have hclass : esEntradaRow (salidaPromedio mov saldo) = false := hentF
          rw [hclass]
          simp only [Bool.false_eq_true, if_false]
          exact ⟨by trivial, by trivial, by trivial⟩
        · have hc := ih (saldoAfter (salidaPromedio mov saldo)) ws
          rw [hrec] at hc
          exact hc
      · simp only [procesarSalida]
        generalize hrec : procesarMovimientosAux db MetodoValoracion.fifo rest
          (lastSaldo saldo (movimientosPorLote mov saldo
            ((calcularCostoFIFO ws mov.cantidad).1.2)))
          ((calcularCostoFIFO ws mov.cantidad).2) = P
        rcases P with ⟨trace, saldoF, wsF⟩
        simp only
        refine balanceContinuous_append _ _ _
          (movimientosPorLote_continuous mov hentF _ saldo) ?_
        have hc := ih (lastSaldo saldo (movimientosPorLote mov saldo
            ((calcularCostoFIFO ws mov.cantidad).1.2)))
          ((calcularCostoFIFO ws mov.cantidad).2)
        rw [hrec] at hc
        exact hc

theorem balanceContinuous_get (l : List KardexMovement) :
    ∀ (saldo : Saldo), balanceContinuous saldo l →
      ∀ (i : Nat) (h : i + 1 < l.length),
        stepComputes (saldoAfter (l.get ⟨i, Nat.lt_of_succ_lt h⟩))
          (l.get ⟨i + 1, h⟩) := by
  induction l with
  | nil => intro saldo _ i h; exact absurd h (by simp)
  | cons m rest ih =>
    intro saldo hcont i h
    rcases hcont with ⟨hstep, hrest⟩
    cases i with
    | zero =>
      cases rest with
      | nil => exact absurd h (by simp)
      | cons m2 rest2 => exact hrest.1
    | succ j =>
      have h2 : j + 1 < rest.length := by
        simpa [List.length_cons, Nat.succ_lt_succ_iff] using h
      exact ih (saldoAfter m) hrest j h2

/-- C6: in every generated Kardex row list, under both valuation methods,
the running balance is continuous: each row's balance-after fields are
computed (entry rule or floored exit rule, average recomputed) from the
balance-after of the preceding row, for every adjacent pair of rows. -/
theorem kardex_saldo_continuo (db : Db) (metodoValoracion : MetodoValoracion)
    (rows : List RawMovRow) (saldoInicial : Saldo) (ws : WorkingSet)
    (i : Nat)
    (h : i + 1 < (procesarMovimientos db metodoValoracion rows saldoInicial ws).length) :
    stepComputes
      (saldoAfter ((procesarMovimientos db metodoValoracion rows saldoInicial ws).get
        ⟨i, Nat.lt_of_succ_lt h⟩))
      ((procesarMovimientos db metodoValoracion rows saldoInicial ws).get
        ⟨i + 1, h⟩) :=
  balanceContinuous_get _ saldoInicial
    (procesarMovimientosAux_continuous db metodoValoracion rows saldoInicial ws) i h

/-- C6 witness: the continuity theorem applied to a concrete two-entry
replay over the cx2 ledger under the PROMEDIO method, at the adjacent
pair (row 0, row 1). -/
theorem kardex_saldo_continuo_witness :
    ∃ h : 0 + 1 < (procesarMovimientos cx2.db .promedio cx6rows ⟨0, 0, 0⟩ []).length,
      stepComputes
        (saldoAfter ((procesarMovimientos cx2.db .promedio cx6rows ⟨0, 0, 0⟩ []).get
          ⟨0, Nat.lt_of_succ_lt h⟩))
        ((procesarMovimientos cx2.db .promedio cx6rows ⟨0, 0, 0⟩ []).get ⟨0 + 1, h⟩) := by
  have hlen : 0 + 1 < (procesarMovimientos cx2.db .promedio cx6rows ⟨0, 0, 0⟩ []).length := by
    simp [procesarMovimientos, procesarMovimientosAux, cx6rows,
      esMovimientoEntrada, beq_tipoMovimiento]
  exact ⟨hlen, kardex_saldo_continuo cx2.db .promedio cx6rows ⟨0, 0, 0⟩ [] 0 hlen⟩

/-! ### C7: one Kardex row per lot in a FIFO exit -/

theorem movimientosPorLote_length (mov : RawMovRow) :
    ∀ (det : List DetalleSalidaCalculado) (saldo : Saldo),
      (movimientosPorLote mov saldo det).length = det.length := by
  intro det
  induction det with
  | nil => intro saldo; rfl
  | cons d ds ih =>
    intro saldo
    simp only [movimientosPorLote, List.length_cons]
    rw [ih]

theorem movimientosPorLote_zip (mov : RawMovRow) :
    ∀ (det : List DetalleSalidaCalculado) (saldo : Saldo),
      ∀ p ∈ (movimientosPorLote mov saldo det).zip det,
        p.1.cantidad = p.2.cantidad ∧
        p.1.costoUnitario = p.2.costoUnitarioDeLote ∧
        p.1.costoTotal = p.2.costoTotal ∧
        p.1.detallesSalida = [p.2] := by
  intro det
  induction det with
  | nil => intro saldo p hp; simp [movimientosPorLote] at hp
  | cons d ds ih =>
    intro saldo p hp
    simp only [movimientosPorLote, List.zip_cons_cons, List.mem_cons] at hp
    rcases hp with hp | hp
    · subst hp
      exact ⟨by trivial, by trivial, by trivial, by trivial⟩
    · exact ih (saldoAfter (salidaStepFIFO mov saldo d)) p hp

theorem consumirDetalles_ids (lotes : List LoteDisponible) :
    ∀ restante : ℚ,
      (consumirDetalles lotes restante).map (·.idLote) =
        (lotes.map (·.idLote)).take (consumirDetalles lotes restante).length := by
  induction lotes with
  | nil => intro r; simp [consumirDetalles]
  | cons l ls ih =>
    intro r
    by_cases hr : r ≤ 0
    · simp [consumirDetalles, if_pos hr]
    · simp only [consumirDetalles, if_neg hr, List.map_cons, List.length_cons,
        List.take_succ_cons, List.cons.injEq]
      exact ⟨by trivial, ih (r - min r l.cantidadDisponible)⟩

theorem consumirDetalles_provenance (lotes : List LoteDisponible) :
    ∀ (restante : ℚ) (d : DetalleSalidaCalculado),
      d ∈ consumirDetalles lotes restante →
      ∃ l ∈ lotes, d.idLote = l.idLote ∧ d.costoUnitarioDeLote = l.costoUnitario := by
  induction lotes with
  | nil => intro r d hd; simp [consumirDetalles] at hd
  | cons l ls ih =>
    intro r d hd
    by_cases hr : r ≤ 0
    · rw [consumirDetalles, if_pos hr] at hd
      simp at hd
    · rw [consumirDetalles, if_neg hr] at hd
      rcases List.mem_cons.mp hd with hd | hd
      · subst hd
        exact ⟨l, by simp, rfl, rfl⟩
      · rcases ih (r - min r l.cantidadDisponible) d hd with ⟨l2, hl2, he1, he2⟩
        exact ⟨l2, by simp [hl2], he1, he2⟩

theorem snapshotLotes_provenance (ws : WorkingSet) :
    ∀ l ∈ snapshotLotes ws,
      ∃ e ∈ ws, e.1 = l.idLote ∧ e.2.costoUnitario = l.costoUnitario := by
  intro l hl
  unfold snapshotLotes at hl
  rw [mem_sortStable] at hl
  rcases List.mem_map.mp hl with ⟨e, he, hel⟩
  rcases List.mem_filter.mp he with ⟨hew, _⟩
  refine ⟨e, hew, ?_, ?_⟩ <;> rw [← hel]

/-- C7: a FIFO exit ledger row fans out into exactly one Kardex row per
lot the greedy consumption touches; each row carries that detail's
quantity, the unit cost of its own lot (a cost present on that lot in the
working set), and an incrementally chained balance-after; and the
consumed lots are the leading lots of the working-set snapshot, which is
ordered by ingress date then lot id. -/
theorem procesarSalida_fifo_por_lote (mov : RawMovRow) (saldoAnterior : Saldo)
    (ws : WorkingSet)
    (hmov : esMovimientoEntrada mov.tipoMovimiento mov.tipoOperacion = false) :
    procesarSalida mov saldoAnterior .fifo ws =
      (.inr (movimientosPorLote mov saldoAnterior
        ((calcularCostoFIFO ws mov.cantidad).1.2)),
       (calcularCostoFIFO ws mov.cantidad).2) ∧
    (movimientosPorLote mov saldoAnterior
        ((calcularCostoFIFO ws mov.cantidad).1.2)).length =
      ((calcularCostoFIFO ws mov.cantidad).1.2).length ∧
    (∀ p ∈ (movimientosPorLote mov saldoAnterior
        ((calcularCostoFIFO ws mov.cantidad).1.2)).zip
          ((calcularCostoFIFO ws mov.cantidad).1.2),
      p.1.cantidad = p.2.cantidad ∧
      p.1.costoUnitario = p.2.costoUnitarioDeLote ∧
      p.1.costoTotal = p.2.costoTotal ∧
      p.1.detallesSalida = [p.2]) ∧
    (∀ d ∈ (calcularCostoFIFO ws mov.cantidad).1.2,
      ∃ e ∈ ws, e.1 = d.idLote ∧ e.2.costoUnitario = d.costoUnitarioDeLote) ∧
    ((calcularCostoFIFO ws mov.cantidad).1.2).map (·.idLote) =
      ((snapshotLotes ws).map (·.idLote)).take
        ((calcularCostoFIFO ws mov.cantidad).1.2).length ∧
    (snapshotLotes ws).Pairwise
      (fun a b => a.fechaIngreso < b.fechaIngreso ∨
        (a.fechaIngreso = b.fechaIngreso ∧ a.idLote ≤ b.idLote)) ∧
    balanceContinuous saldoAnterior
      (movimientosPorLote mov saldoAnterior
        ((calcularCostoFIFO ws mov.cantidad).1.2)) := by
  have hdet : (calcularCostoFIFO ws mov.cantidad).1.2 =
      consumirDetalles (snapshotLotes ws) mov.cantidad := rfl
  refine ⟨rfl, movimientosPorLote_length mov _ saldoAnterior,
    movimientosPorLote_zip mov _ saldoAnterior, ?_, ?_, ?_,
    movimientosPorLote_continuous mov hmov _ saldoAnterior⟩
  · intro d hd
    rw [hdet] at hd
    rcases consumirDetalles_provenance (snapshotLotes ws) mov.cantidad d hd
      with ⟨l, hl, he1, he2⟩
    rcases snapshotLotes_provenance ws l hl with ⟨e, hew, hee1, hee2⟩
    exact ⟨e, hew, by rw [hee1, he1], by rw [hee2, he2]⟩
  · rw [hdet]
    exact consumirDetalles_ids (snapshotLotes ws) mov.cantidad
  · refine (sortStable_pairwise ltFechaId ltFechaId_asym ltFechaId_trans _).imp ?_
    intro a b hab
    simp only [ltFechaId, decide_eq_false_iff_not] at hab
    omega

/-- C7 witness: the fan-out theorem applied to the concrete working set
ws7 (lots 1 and 2) and the 15-unit exit row mov7, whose consumption
touches both lots. -/
theorem procesarSalida_fifo_por_lote_witness :
    procesarSalida mov7 ⟨20, 13 / 2, 130⟩ .fifo ws7 =
      (.inr (movimientosPorLote mov7 ⟨20, 13 / 2, 130⟩
        ((calcularCostoFIFO ws7 mov7.cantidad).1.2)),
       (calcularCostoFIFO ws7 mov7.cantidad).2) ∧
    (movimientosPorLote mov7 ⟨20, 13 / 2, 130⟩
        ((calcularCostoFIFO ws7 mov7.cantidad).1.2)).length =
      ((calcularCostoFIFO ws7 mov7.cantidad).1.2).length ∧
    (∀ p ∈ (movimientosPorLote mov7 ⟨20, 13 / 2, 130⟩
        ((calcularCostoFIFO ws7 mov7.cantidad).1.2)).zip
          ((calcularCostoFIFO ws7 mov7.cantidad).1.2),
      p.1.cantidad = p.2.cantidad ∧
      p.1.costoUnitario = p.2.costoUnitarioDeLote ∧
      p.1.costoTotal = p.2.costoTotal ∧
      p.1.detallesSalida = [p.2]) ∧
    (∀ d ∈ (calcularCostoFIFO ws7 mov7.cantidad).1.2,
      ∃ e ∈ ws7, e.1 = d.idLote ∧ e.2.costoUnitario = d.costoUnitarioDeLote) ∧
    ((calcularCostoFIFO ws7 mov7.cantidad).1.2).map (·.idLote) =
      ((snapshotLotes ws7).map (·.idLote)).take
        ((calcularCostoFIFO ws7 mov7.cantidad).1.2).length ∧
    (snapshotLotes ws7).Pairwise
      (fun a b => a.fechaIngreso < b.fechaIngreso ∨
        (a.fechaIngreso = b.fechaIngreso ∧ a.idLote ≤ b.idLote)) ∧
    balanceContinuous ⟨20, 13 / 2, 130⟩
      (movimientosPorLote mov7 ⟨20, 13 / 2, 130⟩
        ((calcularCostoFIFO ws7 mov7.cantidad).1.2)) :=
  procesarSalida_fifo_por_lote mov7 ⟨20, 13 / 2, 130⟩ ws7 (by decide)

/-! ### C9: round-trip of initial-balance seeding through the Kardex -/

theorem seeded_stockLote_anterior (idInv idLote idMov idDet : Nat)
    (q c : ℚ) (d : Int) (s : EngineState)
    (hdb : s.db = seededDb idInv idLote idMov idDet q c d) :
    (calcularStockLote s idLote (some (d - 1))).1 =
      some ⟨idLote, 0, q, c, d⟩ ∧
    ((calcularStockLote s idLote (some (d - 1))).2).db = s.db := by
  have hdle : ¬ (d ≤ d - 1) := by omega
  have hres : stockLoteResult (seededDb idInv idLote idMov idDet q c d)
      idLote (some (d - 1)) = some ⟨idLote, 0, q, c, d⟩ := by
    simp [stockLoteResult, seededDb, Db.findLote, List.find?,
      cantidadActualLote, entradasLote, salidasLote, ajustesLote, invInitFecha,
      sumQ, Db.findMovimiento, Db.findDetalle, matchesFecha, List.filter,
      beq_tipoMovimiento, beq_estadoMovimiento, hdle]
  unfold calcularStockLote
  rcases hg : s.cache.getLoteStock idLote (some (d - 1)) with _ | cached <;>
    simp only [hg] <;> rw [hdb, hres] <;> exact ⟨rfl, rfl⟩

theorem seeded_stockInventario_anterior (idInv idLote idMov idDet : Nat)
    (q c : ℚ) (d : Int) (s : EngineState)
    (hdb : s.db = seededDb idInv idLote idMov idDet q c d) :
    (calcularStockInventario s idInv (some (d - 1))).1 =
      some ⟨idInv, 0, 0, []⟩ ∧
    ((calcularStockInventario s idInv (some (d - 1))).2).db = s.db := by
  have hlotes : lotesDeInventario (seededDb idInv idLote idMov idDet q c d) idInv =
      [⟨idLote, idInv, q, c, d⟩] := by
    simp [lotesDeInventario, seededDb, sortStable, insertStable, List.filter]
  have hL1 := seeded_stockLote_anterior idInv idLote idMov idDet q c d s hdb
  rcases hr : calcularStockLote s idLote (some (d - 1)) with ⟨r, s1⟩
  rw [hr] at hL1
  simp only at hL1
  rcases hL1 with ⟨hr1, hdb1⟩
  subst hr1
  have hfold : stockLotesFold (some (d - 1)) s
      [(⟨idLote, idInv, q, c, d⟩ : Lote)] = ([], 0, 0, s1) := by
    simp only [stockLotesFold, hr]
    norm_num
  have hfict : salidasFicticias (seededDb idInv idLote idMov idDet q c d)
      idInv (some (d - 1)) = 0 := by
    simp [salidasFicticias, seededDb, sumQ]
  have hcont : (seededDb idInv idLote idMov idDet q c d).inventarios.contains
      idInv = true := by simp [seededDb]
  unfold calcularStockInventario
  rcases hg : s.cache.getInventarioStock idInv (some (d - 1)) with _ | cached <;>
    simp only [hg] <;> rw [hdb] <;>
    simp only [hcont, if_true, hlotes, hfold, hfict] <;>
    refine ⟨by norm_num, hdb1.trans hdb⟩

theorem seeded_saldoInicial (idInv idLote idMov idDet : Nat)
    (q c : ℚ) (d : Int) (s : EngineState)
    (hdb : s.db = seededDb idInv idLote idMov idDet q c d) :
    (calcularSaldoInicial s idInv d).1 = ⟨0, 0, 0⟩ ∧
    ((calcularSaldoInicial s idInv d).2).db = s.db := by
  have hL2 := seeded_stockInventario_anterior idInv idLote idMov idDet q c d s hdb
  unfold calcularSaldoInicial
  rcases hr : calcularStockInventario s idInv (some (d - 1)) with ⟨r, s1⟩
  rw [hr] at hL2
  simp only at hL2
  rcases hL2 with ⟨hr1, hdb1⟩
  subst hr1
  constructor
  · norm_num
  · simpa using hdb1

theorem seeded_inicializar (idInv idLote idMov idDet : Nat)
    (q c : ℚ) (d : Int) (s : EngineState)
    (hdb : s.db = seededDb idInv idLote idMov idDet q c d) :
    (inicializarLotesTemporales s idInv d).1 = [] ∧
    ((inicializarLotesTemporales s idInv d).2).db = s.db := by
  have hL2 := seeded_stockInventario_anterior idInv idLote idMov idDet q c d s hdb
  unfold inicializarLotesTemporales obtenerLotesDisponiblesFIFO
  rcases hr : calcularStockInventario s idInv (some (d - 1)) with ⟨r, s1⟩
  rw [hr] at hL2
  simp only at hL2
  rcases hL2 with ⟨hr1, hdb1⟩
  subst hr1
  constructor
  · simp [sortStable]
  · simpa using hdb1

/-- C9: seeding one inventory position with a single initial-balance lot
of quantity q at unit cost c on day d, then generating the Kardex for the
one-day window [d, d] under either valuation method, yields an opening
balance of zeros and exactly one movement row: quantity q at unit cost c,
leaving balance quantity q at unit cost c (value q times c), which is
also the final balance of the report. -/
theorem kardex_semilla_roundtrip (metodoValoracion : MetodoValoracion)
    (idInv idLote idMov idDet : Nat) (q c : ℚ) (d : Int)
    (hq : 0 < q) (hc : 0 < c) (hlote : idLote ≠ 0) :
    (generarKardex (seededState idInv idLote idMov idDet q c d) idInv d d
      metodoValoracion).1 =
      some { idInventario := idInv
             saldoInicial := ⟨0, 0, 0⟩
             movimientos := [⟨d, .ENTRADA, none, some "INV-INIT", q, c, q * c,
               q, c, q * c, idInv, idMov, idDet, []⟩]
             stockFinal := q
             costoUnitarioFinal := c
             valorTotalFinal := q * c } := by
  have hdb0 : (seededState idInv idLote idMov idDet q c d).db =
      seededDb idInv idLote idMov idDet q c d := rfl
  have hrows : obtenerMovimientosInventario
      (seededState idInv idLote idMov idDet q c d).db idInv d d =
      [{ idMovimientoDetalle := idDet, cantidad := q, idLote := some idLote,
         idInventario := idInv, idMovimiento := idMov,
         tipoMovimiento := .ENTRADA, fecha := d,
         numeroDocumento := some "INV-INIT", tipoOperacion := none }] := by
    simp [obtenerMovimientosInventario, seededState, seededDb, Db.findMovimiento,
      List.find?, List.filterMap, sortStable, insertStable, matchesFecha,
      beq_estadoMovimiento]
  have hcost : obtenerCostoUnitarioEntrada
      (seededDb idInv idLote idMov idDet q c d) (some idLote) = c := by
    simp [obtenerCostoUnitarioEntrada, hlote, Db.findLote, seededDb, List.find?]
  have hmk : procesarEntrada (seededDb idInv idLote idMov idDet q c d)
      { idMovimientoDetalle := idDet, cantidad := q, idLote := some idLote,
        idInventario := idInv, idMovimiento := idMov,
        tipoMovimiento := .ENTRADA, fecha := d,
        numeroDocumento := some "INV-INIT", tipoOperacion := none }
      ⟨0, 0, 0⟩ =
      ⟨d, .ENTRADA, none, some "INV-INIT", q, c, q * c,
        q, c, q * c, idInv, idMov, idDet, []⟩ := by
    simp only [procesarEntrada, hcost, zero_add]
    rw [if_pos hq, mul_div_cancel_left₀ c (ne_of_gt hq)]
  have hrow : ∀ ws : WorkingSet,
      procesarMovimientos (seededDb idInv idLote idMov idDet q c d)
        metodoValoracion
        [{ idMovimientoDetalle := idDet, cantidad := q, idLote := some idLote,
           idInventario := idInv, idMovimiento := idMov,
           tipoMovimiento := .ENTRADA, fecha := d,
           numeroDocumento := some "INV-INIT", tipoOperacion := none }]
        ⟨0, 0, 0⟩ ws =
        [⟨d, .ENTRADA, none, some "INV-INIT", q, c, q * c,
          q, c, q * c, idInv, idMov, idDet, []⟩] := by
    intro ws
    simp only [procesarMovimientos, procesarMovimientosAux]
    rw [if_pos (show esMovimientoEntrada TipoMovimiento.ENTRADA
      (none : Option String) = true from rfl)]
    simp only [procesarMovimientosAux, hmk]
  have hncond : ¬ ¬ ((seededState idInv idLote idMov idDet q c d).db.inventarios.contains
      idInv = true) := by
    simp [seededState, seededDb]
  rcases hsi : calcularSaldoInicial (seededState idInv idLote idMov idDet q c d)
    idInv d with ⟨si, s1⟩
  have hsal := seeded_saldoInicial idInv idLote idMov idDet q c d _ hdb0
  rw [hsi] at hsal
  simp only at hsal
  rcases hsal with ⟨hsi1, hdb1⟩
  subst hsi1
  have hdb1a : s1.db = seededDb idInv idLote idMov idDet q c d := hdb1.trans hdb0
  unfold generarKardex
  rw [if_neg hncond, hrows, hsi]
  simp only []
  rcases hws : (if metodoValoracion == MetodoValoracion.fifo
      then inicializarLotesTemporales s1 idInv d
      else ([], s1)) with ⟨ws0, s2⟩
  have hdb2 : s2.db = seededDb idInv idLote idMov idDet q c d := by
    rcases metodoValoracion with _ | _
    · simp only [show (MetodoValoracion.promedio == MetodoValoracion.fifo) = false
        from rfl, Bool.false_eq_true, if_false] at hws
      have : s1 = s2 := congrArg Prod.snd hws
      rw [← this]
      exact hdb1a
    · simp only [show (MetodoValoracion.fifo == MetodoValoracion.fifo) = true
        from rfl, if_true] at hws
      have hini := (seeded_inicializar idInv idLote idMov idDet q c d s1 hdb1a).2
      rw [hws] at hini
      simp only at hini
      exact hini.trans hdb1a
  simp only [hdb2, hrow, List.getLast?_singleton]
  rw [if_neg hq.ne', if_neg hc.ne']

/-- C8: for a non-purchase document line, the reported unit cost is the
one calcularCostoUnitarioVenta computes under the configured valuation
method, while the recorded per-lot consumption is the one
calcularConsumoFIFO computes (a function that takes no valuation method):
physical depletion is FIFO-by-lot even when costing is weighted-average. -/
theorem procesarLotesComprobante_venta (s : EngineState)
    (d : ComprobanteDetalle) (rest : List ComprobanteDetalle)
    (tipoOperacion : String) (metodoValoracion : MetodoValoracion)
    (fechaEmision : Option Int) (costos : List ℚ)
    (lotesUsados : List LoteUsado)
    (htipo : (tipoOperacion == "COMPRA") = false)
    (h : (procesarLotesComprobante s (d :: rest) tipoOperacion
          metodoValoracion fechaEmision).1 = .ok (costos, lotesUsados)) :
    ∃ c consumo costosRest lotesRest,
      (calcularCostoUnitarioVenta s d.inventarioId d.cantidad
        metodoValoracion fechaEmision).1 = .ok c ∧
      (calcularConsumoFIFO
        (calcularCostoUnitarioVenta s d.inventarioId d.cantidad
          metodoValoracion fechaEmision).2
        d.inventarioId d.cantidad fechaEmision).1 = .ok consumo ∧
      costos = c :: costosRest ∧
      lotesUsados = consumo.map (fun x =>
        { idLote := x.idLote
          costoUnitarioDeLote := x.costoUnitario
          cantidad := x.cantidad }) ++ lotesRest := by
  unfold procesarLotesComprobante at h
  rw [htipo] at h
  rw [if_neg Bool.false_ne_true] at h
  generalize hcv : calcularCostoUnitarioVenta s d.inventarioId d.cantidad
    metodoValoracion fechaEmision = P at h
  rcases P with ⟨r1, s1⟩
  simp only [] at h
  rcases r1 with e | c
  · simp at h
  · generalize hcf : calcularConsumoFIFO s1 d.inventarioId d.cantidad
      fechaEmision = Q at h
    rcases Q with ⟨r2, s2⟩
    simp only [] at h
    rcases r2 with e | consumo
    · simp at h
    · generalize hrec : procesarLotesComprobante
        { s2 with cache := s2.cache.invalidateInventario d.inventarioId }
        rest tipoOperacion metodoValoracion fechaEmision = R at h
      rcases R with ⟨r4, s4⟩
      rcases r4 with e | cr
      · simp at h
      · rcases cr with ⟨costosR, lotesR⟩
        simp only [Except.ok.injEq, Prod.mk.injEq] at h
        refine ⟨c, consumo, costosR, lotesR, ?_, ?_, h.1.symm, h.2.symm⟩
        · rfl
        · rfl

/-- C8 witness: in the two-lot position cx8, a sale line of 15 units
under the weighted-average method reports cost 13/2 while the recorded
consumption is the FIFO drain of lot 1 (10 units at cost 5) and lot 2 (5
units at cost 8). -/
theorem procesarLotesComprobante_venta_witness :
    ∃ c consumo costosRest lotesRest,
      (calcularCostoUnitarioVenta cx8
        (ComprobanteDetalle.mk 1 15 0).inventarioId
        (ComprobanteDetalle.mk 1 15 0).cantidad .promedio (some 20)).1 =
        .ok c ∧
      (calcularConsumoFIFO
        (calcularCostoUnitarioVenta cx8
          (ComprobanteDetalle.mk 1 15 0).inventarioId
          (ComprobanteDetalle.mk 1 15 0).cantidad .promedio (some 20)).2
        (ComprobanteDetalle.mk 1 15 0).inventarioId
        (ComprobanteDetalle.mk 1 15 0).cantidad (some 20)).1 = .ok consumo ∧
      ([13 / 2] : List ℚ) = c :: costosRest ∧
      ([⟨1, 5, 10⟩, ⟨2, 8, 5⟩] : List LoteUsado) =
        consumo.map (fun x =>
          { idLote := x.idLote
            costoUnitarioDeLote := x.costoUnitario
            cantidad := x.cantidad }) ++ lotesRest := by
  refine procesarLotesComprobante_venta cx8 ⟨1, 15, 0⟩ [] "VENTA" .promedio
    (some 20) [13 / 2] [⟨1, 5, 10⟩, ⟨2, 8, 5⟩] (by decide) ?_
  simp [procesarLotesComprobante, calcularCostoUnitarioVenta,
    calcularCostoPromedio, calcularStockInventario, calcularConsumoFIFO,
    obtenerLotesDisponiblesFIFO, stockLotesFold, calcularStockLote,
    stockLoteResult, cantidadActualLote, entradasLote, salidasLote,
    ajustesLote, invInitFecha, salidasFicticias, lotesDeInventario,
    sortStable, insertStable, ltFechaLote, ltFechaDisponible,
    consumirLotes, sumQ, cx8, StockCache.empty, StockCache.getLoteStock,
    StockCache.setLoteStock, StockCache.getInventarioStock,
    StockCache.setInventarioStock, StockCache.invalidateInventario,
    Db.findLote, Db.findMovimiento, Db.findDetalle, matchesFecha]
  norm_num

/-- C9 witness: the round-trip theorem applied to the concrete seeding of
inventory 1 with 5 units at cost 3 on day 10, generated under the FIFO
method. -/
theorem kardex_semilla_roundtrip_witness :
    (generarKardex (seededState 1 1 1 1 5 3 10) 1 10 10 .fifo).1 =
      some { idInventario := 1
             saldoInicial := ⟨0, 0, 0⟩
             movimientos := [⟨10, .ENTRADA, none, some "INV-INIT", 5, 3, 5 * 3,
               5, 3, 5 * 3, 1, 1, 1, []⟩]
             stockFinal := 5
             costoUnitarioFinal := 3
             valorTotalFinal := 5 * 3 } :=
  kardex_semilla_roundtrip .fifo 1 1 1 1 5 3 10 (by norm_num) (by norm_num)
    (by norm_num)

end Coplacont
